import Mathlib

/-!
# Task management API: auto-completion worker, task repository and task service

A shallow embedding of `internal/domain/task.go`, `internal/repository/task_repository.go`,
`internal/service/worker_service.go` and `internal/service/task_service.go`.

Modelling conventions
* `time.Time` is an integer counting nanoseconds and `Time.Add` is integer addition; the SQL
  comparison `created_at < $3` is `<` on those integers. `time.Duration` is `int64`: a
  duration is an integer and the two places where the source computes with durations (the
  product in `graceDuration`, the negation in `FindPendingTasksOlderThan`) wrap with
  `wrapInt64`.
* Table `tasks` is the list of its rows. The schema declares `id UUID PRIMARY KEY`; theorems
  that rely on it carry the hypothesis `uniqueIDs`.
* Every repository method issues one SQL statement. The outcome of the driver call is an
  argument `dbErr : Option String`: `none` when the statement is executed, `some e` when the
  driver reports the error `e` (a failed statement changes no row). The two methods that
  iterate over a result set take a `RowsOutcome` instead, which also covers a `rows.Scan`
  error and an iteration that `rows.Next` ends early (the source never calls `rows.Err`).
* Go `error` values are their messages; a `nil` error is `none`.
* `log.Printf` appends a line to `Env.logs`; every repository call, every `sync.Map` operation
  and every `time.Sleep` appends an `Event` to `Env.trace` (oldest first).
* The buffered channel `taskQueue` is its buffer (oldest entry first) and its capacity.
* `sync.Map` `processedIDs` is the list of its keys (the only value ever stored is `true`).
* Each method is modelled as one uninterrupted run: no other goroutine or request acts on the
  store, the queue or the tracker between two of its steps. The one exception is the
  section on `processTask` as a sequence of atomic steps, where several invocations of
  `processTask` interleave; `runTask_eq_processTask` relates the two readings.
* `uuid.New().String()` is an argument of `taskService.Create`.
-/

namespace TaskApi

/-- Instants of `time.Time`, in nanoseconds. -/
abbrev Time := Int

/-- Values of `time.Duration`, in nanoseconds. -/
abbrev Duration := Int

/-- The constant `time.Minute`. -/
def Minute : Duration := 60000000000

/-- The least `int64`, `math.MinInt64`. -/
def minInt64 : Int := -9223372036854775808

/-- The greatest `int64`, `math.MaxInt64`. -/
def maxInt64 : Int := 9223372036854775807

/-- The `int64` that Go arithmetic yields for the exact result `x`: `x` modulo 2^64, taken
in the range from `minInt64` to `maxInt64`. -/
def wrapInt64 (x : Int) : Int :=
  (x + 9223372036854775808) % 18446744073709551616 - 9223372036854775808

/-- The value of `time.Now().Add(-duration)` at time `now`: the negation is `int64`
arithmetic, the addition to the instant is exact. -/
def cutoffAt (now : Time) (duration : Duration) : Time :=
  now + wrapInt64 (-duration)

/-! ## internal/domain/task.go -/

/-- The Go type `TaskStatus string`. -/
abbrev TaskStatus := String

def StatusPending : TaskStatus := "pending"
def StatusInProgress : TaskStatus := "in_progress"
def StatusCompleted : TaskStatus := "completed"

structure Task where
  ID : String
  UserID : String
  Title : String
  Description : String
  Status : TaskStatus
  CreatedAt : Time
  UpdatedAt : Time
deriving DecidableEq, Repr

/-- Pointer fields of the Go struct are options: `nil` is `none`. -/
structure UpdateTaskRequest where
  Title : Option String
  Description : Option String
  Status : Option TaskStatus
deriving DecidableEq, Repr

structure CreateTaskRequest where
  Title : String
  Description : String
deriving DecidableEq, Repr

/-- The struct `TaskFilter`; a `nil` status is `none`. -/
structure TaskFilter where
  Status : Option TaskStatus
  Limit : Int
  Offset : Int
deriving DecidableEq, Repr

/-- The method `TaskStatus.IsValid`. -/
def IsValid (ts : TaskStatus) : Bool :=
  if ts = StatusPending ∨ ts = StatusInProgress ∨ ts = StatusCompleted then true else false

/-! ## internal/config/config.go -/

structure WorkerConfig where
  AutoCompleteMinutes : Int
deriving DecidableEq, Repr

structure Config where
  Worker : WorkerConfig
deriving DecidableEq, Repr

/-! ## The environment the services act on -/

/-- Observable actions, recorded in program order. -/
inductive Event where
  | findByID (id : String)
  | findPendingTasksOlderThan (duration : Duration)
  | updateStatus (id : String) (status : TaskStatus)
  | update (task : Task)
  | loadOrStore (key : String)
  | load (key : String)
  | mapDelete (key : String)
  | sleep (d : Duration)
  | create (task : Task)
  | findAll (filter : TaskFilter) (userID : String) (isAdmin : Bool)
  | delete (id : String)
deriving DecidableEq, Repr

/-- Table `tasks` behind `taskRepository.db`, the wall clock read by `time.Now()`, the
trace of actions and the lines written by `log.Printf`. -/
structure Env where
  tasks : List Task
  now : Time
  trace : List Event
  logs : List String
deriving DecidableEq, Repr

def Env.emit (env : Env) (e : Event) : Env :=
  { env with trace := env.trace ++ [e] }

def Env.log (env : Env) (line : String) : Env :=
  { env with logs := env.logs ++ [line] }

/-- The primary key of table `tasks`: no two rows share an id. -/
def uniqueIDs (tasks : List Task) : Prop :=
  (tasks.map (fun t => t.ID)).Nodup

instance (tasks : List Task) : Decidable (uniqueIDs tasks) := by
  unfold uniqueIDs; infer_instance

/-- The status writes `UpdateStatus(id, status)` recorded in a trace, in order. -/
def statusWrites (tr : List Event) : List (String × TaskStatus) :=
  tr.filterMap (fun e =>
    match e with
    | .updateStatus id status => some (id, status)
    | _ => none)

/-- The store reads `FindByID(id)` recorded in a trace, in order. -/
def storeReads (tr : List Event) : List String :=
  tr.filterMap (fun e =>
    match e with
    | .findByID id => some id
    | _ => none)

/-- The `sync.Map` operations recorded in a trace, in order. -/
def trackerOps (tr : List Event) : List Event :=
  tr.filter (fun e =>
    match e with
    | .loadOrStore _ => true
    | .load _ => true
    | .mapDelete _ => true
    | _ => false)

/-- The row writes `Update(task)` recorded in a trace, in order. -/
def rowWrites (tr : List Event) : List Task :=
  tr.filterMap (fun e =>
    match e with
    | .update task => some task
    | _ => none)

/-- How the query-and-scan code shared by `FindAll` and `FindPendingTasksOlderThan` ends:
`complete`: the query is executed and every row is read;
`queryFailed e`: `db.Query` returns the error `e`;
`scanFailed i e`: `rows.Scan` returns the error `e` on row `i` (counted from 0), when the
result set has such a row;
`cutShort k`: `rows.Next` ends the loop after `k` rows because of an error that only
`rows.Err` would report; the source does not call `rows.Err`. -/
inductive RowsOutcome where
  | complete
  | queryFailed (e : String)
  | scanFailed (i : Nat) (e : String)
  | cutShort (k : Nat)
deriving DecidableEq, Repr

/-- What the query-and-scan code returns when the statement selects `rows`; `queryMsg` is
the message put in front of a query error. -/
def readRows (outcome : RowsOutcome) (queryMsg : String) (rows : List Task) :
    Except String (List Task) :=
  match outcome with
  | .complete => .ok rows
  | .queryFailed e => .error (queryMsg ++ e)
  | .scanFailed i e =>
    if i < rows.length then .error ("failed to scan task: " ++ e) else .ok rows
  | .cutShort k => .ok (rows.take k)

/-! ## internal/repository/task_repository.go -/

namespace taskRepository

/-- `INSERT INTO tasks (...) VALUES (...)`. A statement the database rejects (duplicate key,
unknown user) is a driver error. -/
def Create (dbErr : Option String) (env : Env) (task : Task) : Option String × Env :=
  let env := env.emit (.create task)
  match dbErr with
  | some e => (some ("failed to create task: " ++ e), env)
  | none => (none, { env with tasks := env.tasks ++ [task] })

/-- `SELECT ... FROM tasks WHERE id = $1`; no row (`sql.ErrNoRows`) is `(nil, nil)`. -/
def FindByID (dbErr : Option String) (env : Env) (id : String) :
    Except String (Option Task) × Env :=
  let env := env.emit (.findByID id)
  match dbErr with
  | some e => (.error ("failed to find task: " ++ e), env)
  | none => (.ok (env.tasks.find? (fun t => t.ID == id)), env)

/-- `SELECT ... FROM tasks [WHERE conditions joined by AND] ORDER BY created_at DESC
[LIMIT n] [OFFSET m]`: the conditions are collected as in the source, rows with equal
creation time keep their table order, the offset is applied before the limit. -/
def FindAll (outcome : RowsOutcome) (env : Env) (filter : TaskFilter) (userID : String)
    (isAdmin : Bool) : Except String (List Task) × Env :=
  let conditions : List (Task → Bool) := []
  let conditions : List (Task → Bool) :=
    if !isAdmin then conditions ++ [fun (t : Task) => t.UserID == userID] else conditions
  let conditions : List (Task → Bool) :=
    match filter.Status with
    | some status => conditions ++ [fun (t : Task) => t.Status == status]
    | none => conditions
  let env := env.emit (.findAll filter userID isAdmin)
  let rows := env.tasks.filter (fun t => conditions.all (fun c => c t))
  let rows := rows.insertionSort (fun a b => b.CreatedAt ≤ a.CreatedAt)
  let rows := if filter.Offset > 0 then rows.drop filter.Offset.toNat else rows
  let rows := if filter.Limit > 0 then rows.take filter.Limit.toNat else rows
  (readRows outcome "failed to find tasks: " rows, env)

/-- `UPDATE tasks SET title, description, status, updated_at WHERE id = $5`. -/
def Update (dbErr : Option String) (env : Env) (task : Task) : Option String × Env :=
  let env := env.emit (.update task)
  match dbErr with
  | some e => (some ("failed to update task: " ++ e), env)
  | none =>
    (none, { env with tasks := env.tasks.map (fun t =>
      if t.ID == task.ID then
        { t with Title := task.Title, Description := task.Description,
                 Status := task.Status, UpdatedAt := task.UpdatedAt }
      else t) })

/-- `DELETE FROM tasks WHERE id = $1`. -/
def Delete (dbErr : Option String) (env : Env) (id : String) : Option String × Env :=
  let env := env.emit (.delete id)
  match dbErr with
  | some e => (some ("failed to delete task: " ++ e), env)
  | none => (none, { env with tasks := env.tasks.filter (fun t => t.ID != id) })

/-- `SELECT ... FROM tasks WHERE (status = $1 OR status = $2) AND created_at < $3` with
`$3 = time.Now().Add(-duration)`. -/
def FindPendingTasksOlderThan (outcome : RowsOutcome) (env : Env) (duration : Duration) :
    Except String (List Task) × Env :=
  let cutoffTime : Time := cutoffAt env.now duration
  let env := env.emit (.findPendingTasksOlderThan duration)
  let rows := env.tasks.filter (fun t =>
    (t.Status == StatusPending || t.Status == StatusInProgress) && t.CreatedAt < cutoffTime)
  (readRows outcome "failed to find pending tasks: " rows, env)

/-- `UPDATE tasks SET status = $1, updated_at = $2 WHERE id = $3` with `$2 = time.Now()`. -/
def UpdateStatus (dbErr : Option String) (env : Env) (id : String) (status : TaskStatus) :
    Option String × Env :=
  let env := env.emit (.updateStatus id status)
  match dbErr with
  | some e => (some ("failed to update task status: " ++ e), env)
  | none =>
    (none, { env with tasks := env.tasks.map (fun t =>
      if t.ID == id then { t with Status := status, UpdatedAt := env.now } else t) })

end taskRepository

/-! ## internal/service/worker_service.go -/

/-- A buffered Go channel of strings: the buffered entries, oldest first, and the capacity. -/
structure Chan where
  buf : List String
  cap : Nat
deriving DecidableEq, Repr

/-- The struct `workerService` together with the environment its repository acts on. -/
structure workerService where
  taskRepo : Env
  config : Config
  taskQueue : Chan
  processedIDs : List String
deriving DecidableEq, Repr

def NewWorkerService (taskRepo : Env) (cfg : Config) : workerService :=
  { taskRepo := taskRepo, config := cfg, taskQueue := { buf := [], cap := 100 },
    processedIDs := [] }

namespace workerService

/-- The expression `time.Duration(w.config.Worker.AutoCompleteMinutes) * time.Minute`, a
product of `int64` values. -/
def graceDuration (w : workerService) : Duration :=
  wrapInt64 (w.config.Worker.AutoCompleteMinutes * Minute)

/-- The `select` with a `default` case: the send is taken when the buffer has room. -/
def EnqueueTask (w : workerService) (taskID : String) : workerService :=
  if w.taskQueue.buf.length < w.taskQueue.cap then
    { w with
      taskQueue := { w.taskQueue with buf := w.taskQueue.buf ++ [taskID] },
      taskRepo := w.taskRepo.log ("Task " ++ taskID ++ " enqueued for auto-completion") }
  else
    { w with taskRepo := w.taskRepo.log ("Task queue full, skipping task " ++ taskID) }

/-- `sync.Map.Delete`. -/
def deleteKey (keys : List String) (key : String) : List String :=
  keys.filter (fun k => k != key)

/-- `time.Sleep`: returns at once for a duration that is not positive. -/
def sleep (env : Env) (d : Duration) : Env :=
  { env.emit (.sleep d) with now := env.now + max d 0 }

/-- The method `processTask`; `readErr` and `writeErr` are the driver outcomes of the
`FindByID` and `UpdateStatus` statements. -/
def processTask (readErr writeErr : Option String) (w : workerService) (taskID : String) :
    workerService :=
  let w := { w with taskRepo := w.taskRepo.emit (.loadOrStore taskID) }
  if taskID ∈ w.processedIDs then
    w
  else
    let w := { w with processedIDs := taskID :: w.processedIDs }
    let w := { w with taskRepo := sleep w.taskRepo w.graceDuration }
    match taskRepository.FindByID readErr w.taskRepo taskID with
    | (.error err, env) =>
      let env := env.log ("Error fetching task " ++ taskID ++ ": " ++ err)
      { w with taskRepo := env.emit (.mapDelete taskID),
               processedIDs := deleteKey w.processedIDs taskID }
    | (.ok none, env) =>
      let env := env.log ("Task " ++ taskID ++ " not found (may have been deleted)")
      { w with taskRepo := env.emit (.mapDelete taskID),
               processedIDs := deleteKey w.processedIDs taskID }
    | (.ok (some task), env) =>
      let env :=
        if task.Status = StatusPending ∨ task.Status = StatusInProgress then
          match taskRepository.UpdateStatus writeErr env taskID StatusCompleted with
          | (some err, env) =>
            env.log ("Error auto-completing task " ++ taskID ++ ": " ++ err)
          | (none, env) =>
            env.log ("Task " ++ taskID ++ " auto-completed successfully")
        else
          env.log ("Task " ++ taskID ++ " already completed, skipping auto-completion")
      { w with taskRepo := env.emit (.mapDelete taskID),
               processedIDs := deleteKey w.processedIDs taskID }

/-- The body of the `for _, task := range tasks` loop of `scanPendingTasks`; `writeErr` is
the driver outcome of the `UpdateStatus` statement, if one is issued. -/
def scanStep (writeErr : Option String) (task : Task) (w : workerService) : workerService :=
  let w := { w with taskRepo := w.taskRepo.emit (.load task.ID) }
  if task.ID ∈ w.processedIDs then
    w
  else
    match taskRepository.UpdateStatus writeErr w.taskRepo task.ID StatusCompleted with
    | (some err, env) =>
      { w with taskRepo := env.log ("Error auto-completing task " ++ task.ID ++ ": " ++ err) }
    | (none, env) =>
      { w with taskRepo := env.log ("Task " ++ task.ID ++ " auto-completed by scanner") }

/-- The `for _, task := range tasks` loop of `scanPendingTasks`; `writeErrs i` is the driver
outcome of an `UpdateStatus` statement issued for the `i`-th task of the list. -/
def scanLoop (writeErrs : Nat → Option String) : List Task → workerService → workerService
  | [], w => w
  | task :: rest, w =>
    scanLoop (fun i => writeErrs (i + 1)) rest (scanStep (writeErrs 0) task w)

/-- The method `scanPendingTasks`; `queryOutcome` tells how the range query ends. -/
def scanPendingTasks (queryOutcome : RowsOutcome) (writeErrs : Nat → Option String)
    (w : workerService) : workerService :=
  let duration := w.graceDuration
  match taskRepository.FindPendingTasksOlderThan queryOutcome w.taskRepo duration with
  | (.error err, env) =>
    { w with taskRepo := env.log ("Error scanning pending tasks: " ++ err) }
  | (.ok tasks, env) =>
    scanLoop writeErrs tasks { w with taskRepo := env }

end workerService

/-! ## `processTask` as a sequence of atomic steps

For the concurrent reading of the protocol each operation of `processTask` on shared state
(`LoadOrStore`, `Sleep`, `FindByID`, `UpdateStatus`, `Delete` on the map) is one atomic
step; several invocations interleave their steps on the same `workerService`. Every sleep
step advances the clock of the shared environment; nothing stated about interleavings
depends on the clock. -/

/-- Program points of an invocation of `processTask`: the operation it performs next. -/
inductive Pc where
  | atLoadOrStore
  | atSleep
  | atFindByID
  | atUpdateStatus
  | atDelete
  | returned
deriving DecidableEq, Repr

/-- The invocation is between its insert into the tracker and its removal from it. -/
def Pc.inFlight : Pc → Bool
  | .atSleep => true
  | .atFindByID => true
  | .atUpdateStatus => true
  | .atDelete => true
  | _ => false

namespace workerService

/-- The next atomic step of an invocation of `processTask(taskID)` that stands at `pc`;
`dbErr` is the driver outcome when the step issues a statement. The log line of a branch
is written in the step that takes the branch. -/
def stepTask (dbErr : Option String) (taskID : String) (w : workerService) :
    Pc → workerService × Pc
  | .atLoadOrStore =>
    let w := { w with taskRepo := w.taskRepo.emit (.loadOrStore taskID) }
    if taskID ∈ w.processedIDs then
      (w, .returned)
    else
      ({ w with processedIDs := taskID :: w.processedIDs }, .atSleep)
  | .atSleep =>
    ({ w with taskRepo := sleep w.taskRepo w.graceDuration }, .atFindByID)
  | .atFindByID =>
    match taskRepository.FindByID dbErr w.taskRepo taskID with
    | (.error err, env) =>
      ({ w with taskRepo := env.log ("Error fetching task " ++ taskID ++ ": " ++ err) },
       .atDelete)
    | (.ok none, env) =>
      ({ w with taskRepo :=
          env.log ("Task " ++ taskID ++ " not found (may have been deleted)") },
       .atDelete)
    | (.ok (some task), env) =>
      if task.Status = StatusPending ∨ task.Status = StatusInProgress then
        ({ w with taskRepo := env }, .atUpdateStatus)
      else
        ({ w with taskRepo :=
            env.log ("Task " ++ taskID ++ " already completed, skipping auto-completion") },
         .atDelete)
  | .atUpdateStatus =>
    match taskRepository.UpdateStatus dbErr w.taskRepo taskID StatusCompleted with
    | (some err, env) =>
      ({ w with taskRepo :=
          env.log ("Error auto-completing task " ++ taskID ++ ": " ++ err) },
       .atDelete)
    | (none, env) =>
      ({ w with taskRepo := env.log ("Task " ++ taskID ++ " auto-completed successfully") },
       .atDelete)
  | .atDelete =>
    ({ w with taskRepo := w.taskRepo.emit (.mapDelete taskID),
              processedIDs := deleteKey w.processedIDs taskID },
     .returned)
  | .returned => (w, .returned)

/-- An invocation running alone: it takes its steps one after the other, each with the
driver outcome listed for it. -/
def runTask (taskID : String) : List (Option String) → workerService × Pc → workerService × Pc
  | [], state => state
  | dbErr :: rest, state => runTask taskID rest (stepTask dbErr taskID state.1 state.2)

end workerService

/-- Several invocations of `processTask` on the same task id over one shared service:
the shared state and the program point of each invocation. -/
structure Pool where
  shared : workerService
  pcs : List Pc
deriving DecidableEq, Repr

/-- What a scheduled step does to the tracker: `stored` is a `LoadOrStore` that finds the
key absent and inserts it, `loaded` one that finds it present, `removed` a `Delete`. -/
inductive TrackerStep where
  | stored
  | loaded
  | removed
  | other
deriving DecidableEq, Repr

namespace Pool

/-- The pool of `n` invocations that have not started yet. -/
def start (n : Nat) (w : workerService) : Pool :=
  { shared := w, pcs := List.replicate n Pc.atLoadOrStore }

/-- The scheduler lets invocation `move.1` take its next step, with driver outcome
`move.2`; an index that names no invocation is skipped. -/
def step (taskID : String) (p : Pool) (move : Nat × Option String) : Pool :=
  match p.pcs[move.1]? with
  | none => p
  | some pc =>
    let next := workerService.stepTask move.2 taskID p.shared pc
    { shared := next.1, pcs := p.pcs.set move.1 next.2 }

/-- The pool after a schedule, a list of moves taken in order. -/
def run (taskID : String) (schedule : List (Nat × Option String)) (p : Pool) : Pool :=
  schedule.foldl (step taskID) p

/-- What the step scheduled by `move` does to the tracker. -/
def trackerStep (taskID : String) (p : Pool) (move : Nat × Option String) : TrackerStep :=
  match p.pcs[move.1]? with
  | some Pc.atLoadOrStore =>
    if taskID ∈ p.shared.processedIDs then TrackerStep.loaded else TrackerStep.stored
  | some Pc.atDelete => TrackerStep.removed
  | _ => TrackerStep.other

/-- The tracker steps of a schedule, in order. -/
def trackerSteps (taskID : String) : List (Nat × Option String) → Pool → List TrackerStep
  | [], _ => []
  | move :: rest, p => trackerStep taskID p move :: trackerSteps taskID rest (step taskID p move)

end Pool

/-! ## internal/service/task_service.go -/

namespace taskService

/-- The method `taskService.Create`; `newID` is the value of `uuid.New().String()` and
`writeErr` the driver outcome of the `INSERT`. The two calls of `time.Now()` that fill
`CreatedAt` and `UpdatedAt` are read as the same instant. -/
def Create (writeErr : Option String) (env : Env) (newID : String) (req : CreateTaskRequest)
    (userID : String) : Except String Task × Env :=
  let task : Task :=
    { ID := newID, UserID := userID, Title := req.Title, Description := req.Description,
      Status := StatusPending, CreatedAt := env.now, UpdatedAt := env.now }
  match taskRepository.Create writeErr env task with
  | (some err, env) => (.error err, env)
  | (none, env) => (.ok task, env)

/-- The method `taskService.Delete`; `readErr` and `writeErr` are the driver outcomes of the
lookup and of the `DELETE`. The result is the returned error, `none` for `nil`. -/
def Delete (readErr writeErr : Option String) (env : Env) (id userID : String)
    (isAdmin : Bool) : Option String × Env :=
  match taskRepository.FindByID readErr env id with
  | (.error err, env) => (some err, env)
  | (.ok none, env) => (some "task not found", env)
  | (.ok (some task), env) =>
    if !isAdmin && task.UserID != userID then
      (some "unauthorized access", env)
    else
      taskRepository.Delete writeErr env id

/-- The method `taskService.Update`; `readErr` and `writeErr` are the driver outcomes of the
`FindByID` and `Update` statements. The result is the returned task or the returned error. -/
def Update (readErr writeErr : Option String) (env : Env) (id : String)
    (req : UpdateTaskRequest) (userID : String) (isAdmin : Bool) : Except String Task × Env :=
  match taskRepository.FindByID readErr env id with
  | (.error err, env) => (.error err, env)
  | (.ok none, env) => (.error "task not found", env)
  | (.ok (some task), env) =>
    if !isAdmin && task.UserID != userID then
      (.error "unauthorized access", env)
    else
      let task := match req.Title with
        | some title => { task with Title := title }
        | none => task
      let task := match req.Description with
        | some description => { task with Description := description }
        | none => task
      match req.Status with
      | some status =>
        if !IsValid status then
          (.error "invalid status", env)
        else
          let task := { task with Status := status }
          let task := { task with UpdatedAt := env.now }
          match taskRepository.Update writeErr env task with
          | (some err, env) => (.error err, env)
          | (none, env) => (.ok task, env)
      | none =>
        let task := { task with UpdatedAt := env.now }
        match taskRepository.Update writeErr env task with
        | (some err, env) => (.error err, env)
        | (none, env) => (.ok task, env)

/-- The method `taskService.List`; `outcome` tells how the query of `FindAll` ends. -/
def List (outcome : RowsOutcome) (env : Env) (filter : TaskFilter) (userID : String)
    (isAdmin : Bool) : Except String (List Task) × Env :=
  taskRepository.FindAll outcome env filter userID isAdmin

end taskService

/-! ## Vocabulary of the statements -/

/-- What an executed `UpdateStatus(id, completed)` at time `n` makes of a row with that id. -/
def completeAt (n : Time) (t : Task) : Task :=
  { t with Status := StatusCompleted, UpdatedAt := n }

/-- The ids for which a sweep over `tasks` issues a status write that is executed: the task
is not in the tracker and the driver reports no error for its statement. -/
def sweptIDs (writeErrs : Nat → Option String) (tracker : List String) :
    List Task → List String
  | [] => []
  | task :: rest =>
    if task.ID ∉ tracker ∧ writeErrs 0 = none then
      task.ID :: sweptIDs (fun i => writeErrs (i + 1)) tracker rest
    else
      sweptIDs (fun i => writeErrs (i + 1)) tracker rest

/-- A task is stale at `cutoff`: non-terminal status and created before the cutoff. -/
def stale (cutoff : Time) (t : Task) : Prop :=
  (t.Status = StatusPending ∨ t.Status = StatusInProgress) ∧ t.CreatedAt < cutoff

/-- Row by row, `tasks'` keeps the ids of `tasks` and the status of each row evolves as
`step` allows (`step t s'`: row `t` may have status `s'` afterwards). -/
def statusesEvolve (step : Task → TaskStatus → Prop) (tasks tasks' : List Task) : Prop :=
  List.Forall₂ (fun t t' => t'.ID = t.ID ∧ step t t'.Status) tasks tasks'

instance (cutoff : Time) (t : Task) : Decidable (stale cutoff t) := by
  unfold stale; infer_instance

/-- For each status write the loop of `scanPendingTasks` issues: the id written and the
status the store holds for that id at the moment the write is issued. -/
def writeSources (writeErrs : Nat → Option String) :
    List Task → workerService → List (String × Option TaskStatus)
  | [], _ => []
  | task :: rest, w =>
    (if task.ID ∈ w.processedIDs then []
     else [(task.ID, (w.taskRepo.tasks.find? (fun t => t.ID == task.ID)).map (fun t => t.Status))])
      ++ writeSources (fun i => writeErrs (i + 1)) rest (w.scanStep (writeErrs 0) task)

/-- Every stored task has a status in {pending, in_progress, completed}. -/
def validStatuses (tasks : List Task) : Prop :=
  ∀ t ∈ tasks,
    t.Status = StatusPending ∨ t.Status = StatusInProgress ∨ t.Status = StatusCompleted

instance (tasks : List Task) : Decidable (validStatuses tasks) := by
  unfold validStatuses; infer_instance

/-- The status changes the worker and the scanner may make to a row: none, or from
pending or in_progress to completed. -/
def workerTransition (s s' : TaskStatus) : Prop :=
  s' = s ∨ ((s = StatusPending ∨ s = StatusInProgress) ∧ s' = StatusCompleted)

/-! ## Example data -/

def exampleConfig : Config := { Worker := { AutoCompleteMinutes := 5 } }

def emptyEnv : Env := { tasks := [], now := 0, trace := [], logs := [] }

/-- A completed task. -/
def completedTask : Task :=
  { ID := "00000000-0000-4000-8000-0000000000a0",
    UserID := "00000000-0000-4000-8000-0000000000b1",
    Title := "done", Description := "", Status := StatusCompleted,
    CreatedAt := 0, UpdatedAt := 1 }

/-- A pending task created at time 0. -/
def pendingTask : Task :=
  { ID := "00000000-0000-4000-8000-0000000000a1",
    UserID := "00000000-0000-4000-8000-0000000000b1",
    Title := "write", Description := "", Status := StatusPending,
    CreatedAt := 0, UpdatedAt := 0 }

/-- An in_progress task created at time 5 ns. -/
def staleTask : Task :=
  { ID := "00000000-0000-4000-8000-0000000000a2",
    UserID := "00000000-0000-4000-8000-0000000000b2",
    Title := "read", Description := "", Status := StatusInProgress,
    CreatedAt := 5, UpdatedAt := 6 }

/-- A pending task created at time 900 s. -/
def freshTask : Task :=
  { ID := "00000000-0000-4000-8000-0000000000a3",
    UserID := "00000000-0000-4000-8000-0000000000b2",
    Title := "new", Description := "", Status := StatusPending,
    CreatedAt := 900000000000, UpdatedAt := 900000000000 }

/-- A worker service whose queue holds 100 entries. -/
def fullQueueService : workerService :=
  { NewWorkerService emptyEnv exampleConfig with
    taskQueue := { buf := List.replicate 100 completedTask.ID, cap := 100 } }

/-- A worker service with one pending task in its store. -/
def pendingService : workerService :=
  NewWorkerService { tasks := [pendingTask], now := 1000, trace := [], logs := [] } exampleConfig

/-- A worker service in which another attempt already owns `pendingTask`. -/
def busyService : workerService :=
  { pendingService with processedIDs := [pendingTask.ID] }

/-- A store with a completed task, a stale pending task, a stale in_progress task and a
fresh pending task, at time 1000 s; the grace period is 5 minutes. -/
def mixedEnv : Env :=
  { tasks := [completedTask, pendingTask, staleTask, freshTask], now := 1000000000000,
    trace := [], logs := [] }

def mixedService : workerService := NewWorkerService mixedEnv exampleConfig

/-- The mixed store served by a worker whose `AutoCompleteMinutes` is 2^52, for which the
product with `time.Minute` wraps to the least `int64`. -/
def overflowService : workerService :=
  NewWorkerService mixedEnv { Worker := { AutoCompleteMinutes := 4503599627370496 } }

/-- A failure pattern for a sweep: the first status write fails, the others are executed. -/
def firstWriteFails : Nat → Option String :=
  fun i => if i = 0 then some "timeout" else none

/-- The row `taskService.Update` stores for `task` under request `req` at time `now`: each of
title, description and status is the one supplied, or the stored one when none is supplied;
the update time is `now`; id, owner and creation time are those of `task`. -/
def updatedRow (req : UpdateTaskRequest) (now : Time) (task : Task) : Task :=
  { task with Title := req.Title.getD task.Title,
              Description := req.Description.getD task.Description,
              Status := req.Status.getD task.Status,
              UpdatedAt := now }

/-! # Theorems -/

/-! ## Basic facts about the status constants -/

theorem pending_ne_completed : StatusPending ≠ StatusCompleted := by decide

theorem inProgress_ne_completed : StatusInProgress ≠ StatusCompleted := by decide

theorem pending_ne_inProgress : StatusPending ≠ StatusInProgress := by decide

/-! ## The completion queue -/

/-- C1: `EnqueueTask` is a total function with no error result. On a queue of capacity 100,
when fewer than 100 entries are buffered the id becomes the newest entry behind the existing
ones, and when 100 entries are buffered the queue is left exactly as it was; the tracker, the
task store and the trace of store calls are untouched either way. -/
theorem C1_EnqueueTask_admits_or_drops (w : workerService) (taskID : String)
    (hcap : w.taskQueue.cap = 100) :
    (w.taskQueue.buf.length < 100 →
      (w.EnqueueTask taskID).taskQueue.buf = w.taskQueue.buf ++ [taskID]) ∧
    (100 ≤ w.taskQueue.buf.length → (w.EnqueueTask taskID).taskQueue = w.taskQueue) ∧
    (w.EnqueueTask taskID).taskQueue.cap = 100 ∧
    (w.EnqueueTask taskID).processedIDs = w.processedIDs ∧
    (w.EnqueueTask taskID).taskRepo.tasks = w.taskRepo.tasks ∧
    (w.EnqueueTask taskID).taskRepo.trace = w.taskRepo.trace := by
  unfold workerService.EnqueueTask
  rw [hcap]
  by_cases hlen : w.taskQueue.buf.length < 100
  · simp [hlen, hcap, Env.log]
  · simp [hlen, hcap, Env.log]

/-- Witness for C1: one more submission to a queue holding 100 entries is dropped. -/
theorem C1_EnqueueTask_witness :
    fullQueueService.taskQueue.cap = 100 ∧
    (fullQueueService.EnqueueTask pendingTask.ID).taskQueue = fullQueueService.taskQueue :=
  ⟨rfl, (C1_EnqueueTask_admits_or_drops fullQueueService pendingTask.ID rfl).2.1 (by decide)⟩

/-! ## The delayed-completion protocol -/

theorem deleteKey_cons_self (keys : List String) (key : String) (h : key ∉ keys) :
    workerService.deleteKey (key :: keys) key = keys := by
  unfold workerService.deleteKey
  simp only [List.filter_cons, bne_self_eq_false, Bool.false_eq_true, if_false]
  rw [List.filter_eq_self]
  intro k hk
  simp only [bne_iff_ne, ne_eq]
  intro hkk
  exact h (hkk ▸ hk)

theorem find_after_statusUpdate (tasks : List Task) (id : String) (status : TaskStatus)
    (n : Time) :
    (tasks.map (fun t => if t.ID == id then { t with Status := status, UpdatedAt := n } else t)).find?
        (fun t => t.ID == id) =
      (tasks.find? (fun t => t.ID == id)).map
        (fun t => { t with Status := status, UpdatedAt := n }) := by
  induction tasks with
  | nil => rfl
  | cons t rest ih =>
    simp only [List.map_cons, List.find?_cons]
    by_cases h : t.ID = id
    · simp [h]
    · have hb : (t.ID == id) = false := by simpa using h
      simp only [hb, Bool.false_eq_true, if_false]
      exact ih

/-- C2: when the id is absent from the tracker, then whatever the store calls yield (any
read outcome, any stored status, any write outcome) the tracker after `processTask` equals
the tracker before it, and the `sync.Map` operations performed are exactly the insertion
followed by one removal of that id. -/
theorem C2_processTask_restores_tracker (readErr writeErr : Option String) (w : workerService)
    (taskID : String) (habsent : taskID ∉ w.processedIDs) :
    (w.processTask readErr writeErr taskID).processedIDs = w.processedIDs ∧
    trackerOps (w.processTask readErr writeErr taskID).taskRepo.trace =
      trackerOps w.taskRepo.trace ++ [.loadOrStore taskID, .mapDelete taskID] := by
  have hdel := deleteKey_cons_self w.processedIDs taskID habsent
  unfold workerService.processTask
  simp only [habsent, if_false]
  cases readErr with
  | some e =>
    simp [taskRepository.FindByID, workerService.sleep, Env.emit, Env.log, trackerOps, hdel]
  | none =>
    cases hfind : w.taskRepo.tasks.find? (fun t => t.ID == taskID) with
    | none =>
      simp [taskRepository.FindByID, workerService.sleep, Env.emit, Env.log, trackerOps, hdel,
        hfind]
    | some task =>
      by_cases hst : task.Status = StatusPending ∨ task.Status = StatusInProgress
      · cases writeErr <;>
          simp [taskRepository.FindByID, taskRepository.UpdateStatus, workerService.sleep,
            Env.emit, Env.log, trackerOps, hdel, hfind, hst]
      · simp [taskRepository.FindByID, workerService.sleep, Env.emit, Env.log, trackerOps, hdel,
          hfind, hst]

/-- Witness for C2: a failing status write still leaves the tracker as it was. -/
theorem C2_processTask_witness :
    pendingTask.ID ∉ pendingService.processedIDs ∧
    (pendingService.processTask none (some "connection reset") pendingTask.ID).processedIDs =
      pendingService.processedIDs :=
  ⟨by decide,
   (C2_processTask_restores_tracker none (some "connection reset") pendingService pendingTask.ID
      (by decide)).1⟩

/-- C3: when the id is already in the tracker, `processTask` only performs the
insert-if-absent: it does not sleep, reads nothing from and writes nothing to the store,
logs nothing, and leaves the task store, the clock, the queue and the tracker as they
were (the entry of the other attempt stays). -/
theorem C3_processTask_present_is_noop (readErr writeErr : Option String) (w : workerService)
    (taskID : String) (hpresent : taskID ∈ w.processedIDs) :
    (w.processTask readErr writeErr taskID).taskRepo.trace =
      w.taskRepo.trace ++ [.loadOrStore taskID] ∧
    storeReads (w.processTask readErr writeErr taskID).taskRepo.trace =
      storeReads w.taskRepo.trace ∧
    statusWrites (w.processTask readErr writeErr taskID).taskRepo.trace =
      statusWrites w.taskRepo.trace ∧
    (w.processTask readErr writeErr taskID).taskRepo.tasks = w.taskRepo.tasks ∧
    (w.processTask readErr writeErr taskID).taskRepo.now = w.taskRepo.now ∧
    (w.processTask readErr writeErr taskID).taskRepo.logs = w.taskRepo.logs ∧
    (w.processTask readErr writeErr taskID).taskQueue = w.taskQueue ∧
    (w.processTask readErr writeErr taskID).processedIDs = w.processedIDs ∧
    taskID ∈ (w.processTask readErr writeErr taskID).processedIDs := by
  unfold workerService.processTask
  simp [hpresent, Env.emit, storeReads, statusWrites]

/-- Witness for C3: `pendingTask` is owned by another attempt. -/
theorem C3_processTask_witness :
    pendingTask.ID ∈ busyService.processedIDs ∧
    (busyService.processTask none none pendingTask.ID).taskRepo.tasks = busyService.taskRepo.tasks ∧
    (busyService.processTask none none pendingTask.ID).processedIDs = [pendingTask.ID] :=
  have h := C3_processTask_present_is_noop none none busyService pendingTask.ID (by decide)
  ⟨by decide, h.2.2.2.1, h.2.2.2.2.2.2.2.1⟩

/-- C4: when the id is absent from the tracker and the read after the delay finds the task
with status pending or in_progress, `processTask` issues exactly one status write, namely
`UpdateStatus(id, completed)`, whether that write succeeds or fails; when it succeeds, the
store then holds that task with status completed (every row with that id, and the row a
lookup by id returns). -/
theorem C4_processTask_completes (writeErr : Option String) (w : workerService)
    (taskID : String) (task : Task) (habsent : taskID ∉ w.processedIDs)
    (hfound : w.taskRepo.tasks.find? (fun t => t.ID == taskID) = some task)
    (hstatus : task.Status = StatusPending ∨ task.Status = StatusInProgress) :
    statusWrites (w.processTask none writeErr taskID).taskRepo.trace =
      statusWrites w.taskRepo.trace ++ [(taskID, StatusCompleted)] ∧
    (∀ t ∈ (w.processTask none none taskID).taskRepo.tasks,
      t.ID = taskID → t.Status = StatusCompleted) ∧
    (w.processTask none none taskID).taskRepo.tasks.find? (fun t => t.ID == taskID) =
      some { task with Status := StatusCompleted,
                       UpdatedAt := w.taskRepo.now + max w.graceDuration 0 } := by
  refine ⟨?_, ?_, ?_⟩
  · unfold workerService.processTask
    cases writeErr <;>
      simp [habsent, taskRepository.FindByID, taskRepository.UpdateStatus, workerService.sleep,
        Env.emit, Env.log, statusWrites, hfound, hstatus]
  · unfold workerService.processTask
    simp only [habsent, if_false, taskRepository.FindByID, taskRepository.UpdateStatus,
      workerService.sleep, Env.emit, Env.log, hfound, hstatus, if_true]
    intro t ht hid
    simp only [List.mem_map] at ht
    obtain ⟨t0, _, rfl⟩ := ht
    by_cases h0 : t0.ID = taskID
    · simp [h0]
    · simp [h0] at hid
  · unfold workerService.processTask
    simp only [habsent, if_false, taskRepository.FindByID, taskRepository.UpdateStatus,
      workerService.sleep, Env.emit, Env.log, hfound, hstatus, if_true]
    rw [find_after_statusUpdate, hfound]
    rfl

/-- Witness for C4: the task `pendingTask` is completed by the worker. -/
theorem C4_processTask_witness :
    (pendingService.processTask none none pendingTask.ID).taskRepo.tasks.find? (fun t => t.ID == pendingTask.ID) =
      some { pendingTask with Status := StatusCompleted,
                              UpdatedAt := 1000 + max pendingService.graceDuration 0 } :=
  (C4_processTask_completes none pendingService pendingTask.ID pendingTask (by decide) (by decide)
    (Or.inl rfl)).2.2

/-- C6: when the id is absent from the tracker and the read after the delay yields no task
(the driver reports an error, or no row has that id), `processTask` reads the store exactly
once, issues no status write and no row write, leaves the task store unchanged, and removes
the id from the tracker; the outcome is a single log line, no value is returned. -/
theorem C6_processTask_no_task (readErr writeErr : Option String) (w : workerService)
    (taskID : String) (habsent : taskID ∉ w.processedIDs)
    (hnone : readErr ≠ none ∨ w.taskRepo.tasks.find? (fun t => t.ID == taskID) = none) :
    storeReads (w.processTask readErr writeErr taskID).taskRepo.trace =
      storeReads w.taskRepo.trace ++ [taskID] ∧
    statusWrites (w.processTask readErr writeErr taskID).taskRepo.trace =
      statusWrites w.taskRepo.trace ∧
    rowWrites (w.processTask readErr writeErr taskID).taskRepo.trace =
      rowWrites w.taskRepo.trace ∧
    (w.processTask readErr writeErr taskID).taskRepo.tasks = w.taskRepo.tasks ∧
    (w.processTask readErr writeErr taskID).processedIDs = w.processedIDs ∧
    (w.processTask readErr writeErr taskID).taskRepo.logs.length =
      w.taskRepo.logs.length + 1 := by
  have hdel := deleteKey_cons_self w.processedIDs taskID habsent
  unfold workerService.processTask
  cases readErr with
  | some e =>
    simp [habsent, taskRepository.FindByID, workerService.sleep, Env.emit, Env.log, storeReads,
      statusWrites, rowWrites, hdel]
  | none =>
    have hfind : w.taskRepo.tasks.find? (fun t => t.ID == taskID) = none := by
      rcases hnone with h | h
      · exact absurd rfl h
      · exact h
    simp [habsent, taskRepository.FindByID, workerService.sleep, Env.emit, Env.log, storeReads,
      statusWrites, rowWrites, hdel, hfind]

/-- Witness for C6: the task was deleted before the delay elapsed. -/
theorem C6_processTask_witness :
    statusWrites (pendingService.processTask none none staleTask.ID).taskRepo.trace = [] ∧
    (pendingService.processTask none none staleTask.ID).taskRepo.tasks = [pendingTask] :=
  have h := C6_processTask_no_task none none pendingService staleTask.ID (by decide)
    (Or.inr (by decide))
  ⟨h.2.1, h.2.2.2.1⟩

/-! ## The reconciliation sweep -/

theorem scanStep_frame (writeErr : Option String) (task : Task) (w : workerService) :
    (w.scanStep writeErr task).processedIDs = w.processedIDs ∧
    (w.scanStep writeErr task).taskRepo.now = w.taskRepo.now ∧
    (w.scanStep writeErr task).taskQueue = w.taskQueue ∧
    (w.scanStep writeErr task).config = w.config := by
  unfold workerService.scanStep
  by_cases h : task.ID ∈ w.processedIDs
  · simp [h, Env.emit]
  · cases writeErr <;> simp [h, taskRepository.UpdateStatus, Env.emit, Env.log]

theorem scanStep_statusWrites (writeErr : Option String) (task : Task) (w : workerService) :
    statusWrites (w.scanStep writeErr task).taskRepo.trace =
      statusWrites w.taskRepo.trace ++
        (if task.ID ∈ w.processedIDs then [] else [(task.ID, StatusCompleted)]) := by
  unfold workerService.scanStep
  by_cases h : task.ID ∈ w.processedIDs
  · simp [h, Env.emit, statusWrites]
  · cases writeErr <;> simp [h, taskRepository.UpdateStatus, Env.emit, Env.log, statusWrites]

theorem scanStep_tasks (writeErr : Option String) (task : Task) (w : workerService) :
    (w.scanStep writeErr task).taskRepo.tasks =
      if task.ID ∉ w.processedIDs ∧ writeErr = none then
        w.taskRepo.tasks.map (fun t => if t.ID = task.ID then completeAt w.taskRepo.now t else t)
      else w.taskRepo.tasks := by
  unfold workerService.scanStep
  by_cases h : task.ID ∈ w.processedIDs
  · simp [h, Env.emit]
  · cases writeErr <;>
      simp [h, taskRepository.UpdateStatus, Env.emit, Env.log, completeAt]

theorem scanLoop_frame (writeErrs : Nat → Option String) (tasks : List Task)
    (w : workerService) :
    (w.scanLoop writeErrs tasks).processedIDs = w.processedIDs ∧
    (w.scanLoop writeErrs tasks).taskRepo.now = w.taskRepo.now ∧
    (w.scanLoop writeErrs tasks).taskQueue = w.taskQueue ∧
    (w.scanLoop writeErrs tasks).config = w.config := by
  induction tasks generalizing writeErrs w with
  | nil => simp [workerService.scanLoop]
  | cons task rest ih =>
    obtain ⟨h1, h2, h3, h4⟩ := scanStep_frame (writeErrs 0) task w
    obtain ⟨i1, i2, i3, i4⟩ := ih (fun i => writeErrs (i + 1)) (w.scanStep (writeErrs 0) task)
    simp only [workerService.scanLoop]
    exact ⟨i1.trans h1, i2.trans h2, i3.trans h3, i4.trans h4⟩

theorem scanLoop_statusWrites (writeErrs : Nat → Option String) (tasks : List Task)
    (w : workerService) :
    statusWrites (w.scanLoop writeErrs tasks).taskRepo.trace =
      statusWrites w.taskRepo.trace ++
        (tasks.filter (fun t => decide (t.ID ∉ w.processedIDs))).map
          (fun t => (t.ID, StatusCompleted)) := by
  induction tasks generalizing writeErrs w with
  | nil => simp [workerService.scanLoop]
  | cons task rest ih =>
    simp only [workerService.scanLoop]
    rw [ih, scanStep_statusWrites, (scanStep_frame (writeErrs 0) task w).1]
    by_cases h : task.ID ∈ w.processedIDs
    · simp [h]
    · simp [h]

theorem completeAt_idem (n : Time) (t : Task) : completeAt n (completeAt n t) = completeAt n t :=
  rfl

theorem scanLoop_tasks (writeErrs : Nat → Option String) (tasks : List Task)
    (w : workerService) :
    (w.scanLoop writeErrs tasks).taskRepo.tasks =
      w.taskRepo.tasks.map (fun t =>
        if t.ID ∈ sweptIDs writeErrs w.processedIDs tasks then completeAt w.taskRepo.now t
        else t) := by
  induction tasks generalizing writeErrs w with
  | nil => simp [workerService.scanLoop, sweptIDs]
  | cons task rest ih =>
    simp only [workerService.scanLoop]
    rw [ih, (scanStep_frame (writeErrs 0) task w).1, (scanStep_frame (writeErrs 0) task w).2.1,
      scanStep_tasks]
    by_cases h : task.ID ∉ w.processedIDs ∧ writeErrs 0 = none
    · rw [if_pos h, List.map_map]
      apply List.map_congr_left
      intro t _
      simp only [Function.comp, sweptIDs, h, and_self, if_true, List.mem_cons]
      by_cases ht : t.ID = task.ID
      · simp [ht, completeAt]
      · simp [ht]
    · rw [if_neg h]
      simp only [sweptIDs, h, if_false]

theorem mem_sweptIDs (writeErrs : Nat → Option String) (tracker : List String)
    (tasks : List Task) (id : String) (h : id ∈ sweptIDs writeErrs tracker tasks) :
    id ∉ tracker ∧ ∃ t ∈ tasks, t.ID = id := by
  induction tasks generalizing writeErrs with
  | nil => simp [sweptIDs] at h
  | cons task rest ih =>
    simp only [sweptIDs] at h
    by_cases hc : task.ID ∉ tracker ∧ writeErrs 0 = none
    · rw [if_pos hc, List.mem_cons] at h
      rcases h with h | h
      · exact ⟨h ▸ hc.1, task, List.mem_cons_self _ _, h.symm⟩
      · obtain ⟨h1, t, ht, hid⟩ := ih _ h
        exact ⟨h1, t, List.mem_cons_of_mem _ ht, hid⟩
    · rw [if_neg hc] at h
      obtain ⟨h1, t, ht, hid⟩ := ih _ h
      exact ⟨h1, t, List.mem_cons_of_mem _ ht, hid⟩

theorem mem_sweptIDs_of_executed (writeErrs : Nat → Option String) (tracker : List String)
    (tasks : List Task) (t : Task) (ht : t ∈ tasks) (huntracked : t.ID ∉ tracker)
    (hok : ∀ i, writeErrs i = none) : t.ID ∈ sweptIDs writeErrs tracker tasks := by
  induction tasks generalizing writeErrs with
  | nil => simp at ht
  | cons task rest ih =>
    simp only [sweptIDs]
    rcases List.mem_cons.1 ht with h | h
    · subst h
      simp [huntracked, hok 0]
    · have := ih (fun i => writeErrs (i + 1)) h (fun i => hok (i + 1))
      by_cases hc : task.ID ∉ tracker ∧ writeErrs 0 = none
      · rw [if_pos hc]; exact List.mem_cons_of_mem _ this
      · rw [if_neg hc]; exact this

/-! ### `int64` arithmetic and the cutoff -/

theorem wrapInt64_of_int64 (x : Int) (hlo : minInt64 ≤ x) (hhi : x ≤ maxInt64) :
    wrapInt64 x = x := by
  have hmin : minInt64 = -9223372036854775808 := rfl
  have hmax : maxInt64 = 9223372036854775807 := rfl
  unfold wrapInt64
  omega

theorem wrapInt64_int64 (x : Int) : minInt64 ≤ wrapInt64 x ∧ wrapInt64 x ≤ maxInt64 := by
  have hmin : minInt64 = -9223372036854775808 := rfl
  have hmax : maxInt64 = 9223372036854775807 := rfl
  unfold wrapInt64
  omega

theorem wrapInt64_neg (d : Int) (hlo : minInt64 < d) (hhi : d ≤ maxInt64) :
    wrapInt64 (-d) = -d := by
  have hmin : minInt64 = -9223372036854775808 := rfl
  have hmax : maxInt64 = 9223372036854775807 := rfl
  unfold wrapInt64
  omega

theorem wrapInt64_neg_minInt64 : wrapInt64 (-minInt64) = minInt64 := by
  have hmin : minInt64 = -9223372036854775808 := rfl
  unfold wrapInt64
  omega

theorem cutoffAt_eq (now : Time) (d : Duration) (hlo : minInt64 < d) (hhi : d ≤ maxInt64) :
    cutoffAt now d = now - d := by
  unfold cutoffAt
  rw [wrapInt64_neg d hlo hhi]
  exact (sub_eq_add_neg _ _).symm

theorem cutoffAt_minInt64 (now : Time) :
    cutoffAt now minInt64 = now - 9223372036854775808 := by
  have hmin : minInt64 = -9223372036854775808 := rfl
  unfold cutoffAt
  rw [wrapInt64_neg_minInt64, hmin]
  exact (sub_eq_add_neg _ _).symm

theorem graceDuration_int64 (w : workerService) :
    minInt64 ≤ w.graceDuration ∧ w.graceDuration ≤ maxInt64 :=
  wrapInt64_int64 _

/-! ### The range query and the sweep -/

theorem readRows_cases (outcome : RowsOutcome) (queryMsg : String) (rows : List Task) :
    (∃ err, readRows outcome queryMsg rows = .error err) ∨
    (∃ returned, readRows outcome queryMsg rows = .ok returned ∧ returned.Sublist rows) := by
  cases outcome with
  | complete => exact Or.inr ⟨rows, rfl, List.Sublist.refl _⟩
  | queryFailed e => exact Or.inl ⟨_, rfl⟩
  | scanFailed i e =>
    by_cases h : i < rows.length
    · exact Or.inl ⟨"failed to scan task: " ++ e, by simp [readRows, h]⟩
    · exact Or.inr ⟨rows, by simp [readRows, h], List.Sublist.refl _⟩
  | cutShort k => exact Or.inr ⟨rows.take k, rfl, List.take_sublist _ _⟩

theorem FindPendingTasksOlderThan_eq (outcome : RowsOutcome) (env : Env) (d : Duration) :
    taskRepository.FindPendingTasksOlderThan outcome env d =
      (readRows outcome "failed to find pending tasks: "
        (env.tasks.filter (fun t => decide (stale (cutoffAt env.now d) t))),
       env.emit (.findPendingTasksOlderThan d)) := by
  simp only [taskRepository.FindPendingTasksOlderThan, Env.emit]
  congr 2
  apply List.filter_congr
  intro t _
  rw [Bool.eq_iff_iff]
  simp [stale]

theorem scanPendingTasks_of_error (outcome : RowsOutcome) (writeErrs : Nat → Option String)
    (w : workerService) (err : String)
    (h : (taskRepository.FindPendingTasksOlderThan outcome w.taskRepo w.graceDuration).1 =
      .error err) :
    w.scanPendingTasks outcome writeErrs =
      { w with taskRepo :=
          (Env.log (w.taskRepo.emit (.findPendingTasksOlderThan w.graceDuration))
            ("Error scanning pending tasks: " ++ err)) } := by
  rw [FindPendingTasksOlderThan_eq] at h
  simp only at h
  simp only [workerService.scanPendingTasks, FindPendingTasksOlderThan_eq, h]

theorem scanPendingTasks_of_ok (outcome : RowsOutcome) (writeErrs : Nat → Option String)
    (w : workerService) (returned : List Task)
    (h : (taskRepository.FindPendingTasksOlderThan outcome w.taskRepo w.graceDuration).1 =
      .ok returned) :
    w.scanPendingTasks outcome writeErrs =
      workerService.scanLoop writeErrs returned
        { w with taskRepo := w.taskRepo.emit (.findPendingTasksOlderThan w.graceDuration) } := by
  rw [FindPendingTasksOlderThan_eq] at h
  simp only at h
  simp only [workerService.scanPendingTasks, FindPendingTasksOlderThan_eq, h]

theorem scanPendingTasks_executed (writeErrs : Nat → Option String) (w : workerService) :
    w.scanPendingTasks .complete writeErrs =
      workerService.scanLoop writeErrs
        (w.taskRepo.tasks.filter
          (fun t => decide (stale (cutoffAt w.taskRepo.now w.graceDuration) t)))
        { w with taskRepo := w.taskRepo.emit (.findPendingTasksOlderThan w.graceDuration) } := by
  apply scanPendingTasks_of_ok
  rw [FindPendingTasksOlderThan_eq]
  rfl

theorem scanPendingTasks_tasks (writeErrs : Nat → Option String) (w : workerService) :
    (w.scanPendingTasks .complete writeErrs).taskRepo.tasks =
      w.taskRepo.tasks.map (fun t =>
        if t.ID ∈ sweptIDs writeErrs w.processedIDs
            (w.taskRepo.tasks.filter
              (fun t => decide (stale (cutoffAt w.taskRepo.now w.graceDuration) t)))
        then completeAt w.taskRepo.now t else t) := by
  rw [scanPendingTasks_executed, scanLoop_tasks]
  rfl

theorem scanPendingTasks_failed (outcome : RowsOutcome) (err : String)
    (writeErrs : Nat → Option String) (w : workerService)
    (h : (taskRepository.FindPendingTasksOlderThan outcome w.taskRepo w.graceDuration).1 =
      .error err) :
    (w.scanPendingTasks outcome writeErrs).taskRepo.tasks = w.taskRepo.tasks ∧
    (w.scanPendingTasks outcome writeErrs).processedIDs = w.processedIDs ∧
    statusWrites (w.scanPendingTasks outcome writeErrs).taskRepo.trace =
      statusWrites w.taskRepo.trace ∧
    (w.scanPendingTasks outcome writeErrs).taskRepo.logs =
      w.taskRepo.logs ++ ["Error scanning pending tasks: " ++ err] := by
  rw [scanPendingTasks_of_error outcome writeErrs w err h]
  simp [Env.emit, Env.log, statusWrites]

/-- Whatever way the range query ends, the sweep runs the loop over a list `returned` taken
in order from the stale stored tasks (the empty list when the query reports an error). -/
theorem scanPendingTasks_effect (outcome : RowsOutcome) (writeErrs : Nat → Option String)
    (w : workerService) :
    ∃ returned : List Task,
      returned.Sublist (w.taskRepo.tasks.filter
        (fun t => decide (stale (cutoffAt w.taskRepo.now w.graceDuration) t))) ∧
      (w.scanPendingTasks outcome writeErrs).taskRepo.tasks =
        w.taskRepo.tasks.map (fun t =>
          if t.ID ∈ sweptIDs writeErrs w.processedIDs returned
          then completeAt w.taskRepo.now t else t) ∧
      statusWrites (w.scanPendingTasks outcome writeErrs).taskRepo.trace =
        statusWrites w.taskRepo.trace ++
          (returned.filter (fun t => decide (t.ID ∉ w.processedIDs))).map
            (fun t => (t.ID, StatusCompleted)) ∧
      (w.scanPendingTasks outcome writeErrs).processedIDs = w.processedIDs := by
  have heq := FindPendingTasksOlderThan_eq outcome w.taskRepo w.graceDuration
  rcases readRows_cases outcome "failed to find pending tasks: "
      (w.taskRepo.tasks.filter
        (fun t => decide (stale (cutoffAt w.taskRepo.now w.graceDuration) t))) with
    ⟨err, herr⟩ | ⟨returned, hok, hsub⟩
  · have h : (taskRepository.FindPendingTasksOlderThan outcome w.taskRepo
        w.graceDuration).1 = .error err := by rw [heq]; exact herr
    obtain ⟨h1, h2, h3, _⟩ := scanPendingTasks_failed outcome err writeErrs w h
    refine ⟨[], List.nil_sublist _, ?_, ?_, h2⟩
    · rw [h1]
      simp [sweptIDs]
    · rw [h3]
      simp
  · have h : (taskRepository.FindPendingTasksOlderThan outcome w.taskRepo
        w.graceDuration).1 = .ok returned := by rw [heq]; exact hok
    rw [scanPendingTasks_of_ok outcome writeErrs w returned h]
    refine ⟨returned, hsub, ?_, ?_, ?_⟩
    · rw [scanLoop_tasks]
      rfl
    · rw [scanLoop_statusWrites]
      simp [Env.emit, statusWrites]
    · rw [(scanLoop_frame writeErrs returned _).1]

/-- C8 (as amended): for every duration `d` of type `int64` other than the least one, when
the range query is executed and every row is read, `FindPendingTasksOlderThan(d)` returns
exactly the stored tasks whose status is pending or in_progress and whose creation time is
before `now - d`, in table order: a task is returned if and only if it is stored and
qualifies. The query changes no row, and however the iteration ends a returned list is
taken in order from those tasks. At the least `int64` duration the negation wraps and the
cutoff is `now - 2^63`. -/
theorem C8_FindPendingTasksOlderThan_exact (env : Env) (d : Duration)
    (hd : minInt64 < d ∧ d ≤ maxInt64) :
    (∃ tasks : List Task,
      (taskRepository.FindPendingTasksOlderThan .complete env d).1 = .ok tasks ∧
      tasks = env.tasks.filter (fun t => decide (stale (env.now - d) t)) ∧
      (∀ t, t ∈ tasks ↔
        t ∈ env.tasks ∧ (t.Status = StatusPending ∨ t.Status = StatusInProgress) ∧
          t.CreatedAt < env.now - d) ∧
      (∀ t ∈ tasks, t.Status ≠ StatusCompleted ∧ ¬ env.now - d ≤ t.CreatedAt)) ∧
    (∀ outcome : RowsOutcome,
      (taskRepository.FindPendingTasksOlderThan outcome env d).2.tasks = env.tasks) ∧
    (∀ (outcome : RowsOutcome) (tasks : List Task),
      (taskRepository.FindPendingTasksOlderThan outcome env d).1 = .ok tasks →
      tasks.Sublist (env.tasks.filter (fun t => decide (stale (env.now - d) t)))) ∧
    (taskRepository.FindPendingTasksOlderThan .complete env minInt64).1 =
      .ok (env.tasks.filter
        (fun t => decide (stale (env.now - 9223372036854775808) t))) := by
  have hcut := cutoffAt_eq env.now d hd.1 hd.2
  refine ⟨⟨env.tasks.filter (fun t => decide (stale (env.now - d) t)), ?_, rfl, ?_, ?_⟩,
    ?_, ?_, ?_⟩
  · rw [FindPendingTasksOlderThan_eq, hcut]
    rfl
  · intro t
    simp [List.mem_filter, stale]
  · intro t ht
    simp only [List.mem_filter, decide_eq_true_eq, stale] at ht
    refine ⟨?_, not_le.2 ht.2.2⟩
    rcases ht.2.1 with h | h
    · rw [h]; exact pending_ne_completed
    · rw [h]; exact inProgress_ne_completed
  · intro outcome
    rw [FindPendingTasksOlderThan_eq]
    rfl
  · intro outcome tasks h
    rw [FindPendingTasksOlderThan_eq, hcut] at h
    rcases readRows_cases outcome "failed to find pending tasks: "
        (env.tasks.filter (fun t => decide (stale (env.now - d) t))) with
      ⟨err, herr⟩ | ⟨returned, hok, hsub⟩
    · simp only [herr] at h
      cases h
    · simp only [hok, Except.ok.injEq] at h
      exact h ▸ hsub
  · rw [FindPendingTasksOlderThan_eq, cutoffAt_minInt64]
    rfl

/-- Witness for C8: with a duration of five minutes the query on the mixed store returns
the two stale tasks. -/
theorem C8_FindPendingTasksOlderThan_witness :
    (taskRepository.FindPendingTasksOlderThan .complete mixedEnv 300000000000).1 =
      .ok [pendingTask, staleTask] :=
  have h := (C8_FindPendingTasksOlderThan_exact mixedEnv 300000000000
    ⟨by decide, by decide⟩).1
  h.choose_spec.1.trans (congrArg Except.ok (h.choose_spec.2.1.trans (by decide)))

/-- Counterexample to C8 as stated: at the least `int64` duration `d` the query on the mixed
store is executed, every row is read and no task is returned, although `pendingTask` is a
stored pending task created before `now - d`. -/
theorem C8_min_duration_counterexample :
    (taskRepository.FindPendingTasksOlderThan .complete mixedEnv minInt64).1 = .ok [] ∧
    pendingTask ∈ mixedEnv.tasks ∧
    pendingTask.Status = StatusPending ∧
    pendingTask.CreatedAt < mixedEnv.now - minInt64 := by
  refine ⟨?_, by decide, rfl, by decide⟩
  rw [FindPendingTasksOlderThan_eq, cutoffAt_minInt64]
  exact congrArg Except.ok (by decide)

/-- C7 (as amended): when the grace duration is not the least `int64` value, one sweep at
time `now` in which the range query is executed, every row is read and every status write
is executed completes every stale task that is not in the tracker: a stored task that was
pending or in_progress and created before `now` minus the grace duration is stored
afterwards with status completed and its other fields kept, and every row with its id has
status completed. The grace duration is `AutoCompleteMinutes * time.Minute` in `int64`. -/
theorem C7_scan_completes_stale (w : workerService) (t : Task) (ht : t ∈ w.taskRepo.tasks)
    (hgrace : w.graceDuration ≠ minInt64)
    (hstale : (t.Status = StatusPending ∨ t.Status = StatusInProgress) ∧
      t.CreatedAt < w.taskRepo.now - w.graceDuration)
    (huntracked : t.ID ∉ w.processedIDs) :
    (∃ t' ∈ (w.scanPendingTasks .complete (fun _ => none)).taskRepo.tasks,
      t'.ID = t.ID ∧ t'.UserID = t.UserID ∧ t'.Title = t.Title ∧
      t'.Description = t.Description ∧ t'.CreatedAt = t.CreatedAt ∧
      t'.Status = StatusCompleted) ∧
    (∀ t' ∈ (w.scanPendingTasks .complete (fun _ => none)).taskRepo.tasks,
      t'.ID = t.ID → t'.Status = StatusCompleted) ∧
    w.graceDuration = wrapInt64 (w.config.Worker.AutoCompleteMinutes * Minute) := by
  have hrange := graceDuration_int64 w
  have hcut : cutoffAt w.taskRepo.now w.graceDuration = w.taskRepo.now - w.graceDuration :=
    cutoffAt_eq _ _ (lt_of_le_of_ne hrange.1 (Ne.symm hgrace)) hrange.2
  have hswept : t.ID ∈ sweptIDs (fun _ => none) w.processedIDs
      (w.taskRepo.tasks.filter
        (fun t => decide (stale (cutoffAt w.taskRepo.now w.graceDuration) t))) := by
    apply mem_sweptIDs_of_executed _ _ _ t _ huntracked (fun _ => rfl)
    simp only [List.mem_filter, decide_eq_true_eq]
    rw [hcut]
    exact ⟨ht, hstale⟩
  rw [scanPendingTasks_tasks]
  refine ⟨⟨completeAt w.taskRepo.now t, ?_, rfl, rfl, rfl, rfl, rfl, rfl⟩, ?_, rfl⟩
  · refine List.mem_map.2 ⟨t, ht, ?_⟩
    simp only [hswept, if_true]
  · intro t' ht' hid
    obtain ⟨x, _, rfl⟩ := List.mem_map.1 ht'
    by_cases hx : x.ID ∈ sweptIDs (fun _ => none) w.processedIDs
        (w.taskRepo.tasks.filter
          (fun t => decide (stale (cutoffAt w.taskRepo.now w.graceDuration) t)))
    · simp [hx, completeAt]
    · simp only [hx, if_false] at hid
      exact absurd (hid ▸ hswept) hx

/-- Witness for C7: the stale in_progress task `staleTask` is completed by one sweep. -/
theorem C7_scan_witness :
    (staleTask ∈ mixedService.taskRepo.tasks ∧ mixedService.graceDuration = 300000000000 ∧
      staleTask.Status = StatusInProgress ∧
      staleTask.CreatedAt < mixedService.taskRepo.now - mixedService.graceDuration) ∧
    ∃ t' ∈ (mixedService.scanPendingTasks .complete (fun _ => none)).taskRepo.tasks,
      t'.ID = staleTask.ID ∧ t'.UserID = staleTask.UserID ∧ t'.Title = staleTask.Title ∧
      t'.Description = staleTask.Description ∧ t'.CreatedAt = staleTask.CreatedAt ∧
      t'.Status = StatusCompleted :=
  ⟨⟨by decide, by decide, rfl, by decide⟩,
   (C7_scan_completes_stale mixedService staleTask (by decide) (by decide) (by decide)
    (by decide)).1⟩

/-- Counterexample to C7 as stated: with `AutoCompleteMinutes = 2^52` the grace duration
wraps to the least `int64` value; `freshTask` is a stored pending task, untracked and
created before `now` minus that duration, and the tracker is empty, yet a sweep whose query
and writes all succeed leaves the store as it was, `freshTask` still pending. -/
theorem C7_overflow_counterexample :
    overflowService.graceDuration = minInt64 ∧
    freshTask ∈ overflowService.taskRepo.tasks ∧
    freshTask.Status = StatusPending ∧
    freshTask.CreatedAt < overflowService.taskRepo.now - overflowService.graceDuration ∧
    overflowService.processedIDs = [] ∧
    (overflowService.scanPendingTasks .complete (fun _ => none)).taskRepo.tasks =
      overflowService.taskRepo.tasks ∧
    freshTask ∈ (overflowService.scanPendingTasks .complete (fun _ => none)).taskRepo.tasks := by
  refine ⟨by decide, by decide, rfl, by decide, rfl, by decide, by decide⟩

theorem scanStep_trackerOps (writeErr : Option String) (task : Task) (w : workerService) :
    trackerOps (w.scanStep writeErr task).taskRepo.trace =
      trackerOps w.taskRepo.trace ++ [Event.load task.ID] := by
  unfold workerService.scanStep
  by_cases h : task.ID ∈ w.processedIDs
  · simp [h, Env.emit, trackerOps]
  · cases writeErr <;> simp [h, taskRepository.UpdateStatus, Env.emit, Env.log, trackerOps]

theorem scanLoop_trackerOps (writeErrs : Nat → Option String) (tasks : List Task)
    (w : workerService) :
    trackerOps (w.scanLoop writeErrs tasks).taskRepo.trace =
      trackerOps w.taskRepo.trace ++ tasks.map (fun t => Event.load t.ID) := by
  induction tasks generalizing writeErrs w with
  | nil => simp [workerService.scanLoop]
  | cons task rest ih =>
    simp only [workerService.scanLoop]
    rw [ih, scanStep_trackerOps]
    simp

/-- C9: when the range query returns `tasks` (however its iteration ends), the status
writes `scanPendingTasks` issues are, in order, `UpdateStatus(id, completed)` for exactly
the returned tasks whose id is absent from the tracker (none for a returned task whose id
is present), whatever the outcome of each write; the tracker is left as it was and the only
`sync.Map` operations are the membership checks. The same holds for the loop run on an
arbitrary task list. -/
theorem C9_scan_writes_untracked_only (writeErrs : Nat → Option String) (w : workerService)
    (queryOutcome : RowsOutcome) (tasks : List Task) (env : Env)
    (hquery :
      taskRepository.FindPendingTasksOlderThan queryOutcome w.taskRepo w.graceDuration =
        (.ok tasks, env)) :
    (statusWrites (w.scanPendingTasks queryOutcome writeErrs).taskRepo.trace =
      statusWrites w.taskRepo.trace ++
        (tasks.filter (fun t => decide (t.ID ∉ w.processedIDs))).map
          (fun t => (t.ID, StatusCompleted)) ∧
     (w.scanPendingTasks queryOutcome writeErrs).processedIDs = w.processedIDs ∧
     trackerOps (w.scanPendingTasks queryOutcome writeErrs).taskRepo.trace =
      trackerOps w.taskRepo.trace ++ tasks.map (fun t => Event.load t.ID)) ∧
    ∀ (returned : List Task) (v : workerService),
      statusWrites (v.scanLoop writeErrs returned).taskRepo.trace =
        statusWrites v.taskRepo.trace ++
          (returned.filter (fun t => decide (t.ID ∉ v.processedIDs))).map
            (fun t => (t.ID, StatusCompleted)) ∧
      (v.scanLoop writeErrs returned).processedIDs = v.processedIDs ∧
      trackerOps (v.scanLoop writeErrs returned).taskRepo.trace =
        trackerOps v.taskRepo.trace ++ returned.map (fun t => Event.load t.ID) := by
  have hloop : ∀ (returned : List Task) (v : workerService),
      statusWrites (v.scanLoop writeErrs returned).taskRepo.trace =
        statusWrites v.taskRepo.trace ++
          (returned.filter (fun t => decide (t.ID ∉ v.processedIDs))).map
            (fun t => (t.ID, StatusCompleted)) ∧
      (v.scanLoop writeErrs returned).processedIDs = v.processedIDs ∧
      trackerOps (v.scanLoop writeErrs returned).taskRepo.trace =
        trackerOps v.taskRepo.trace ++ returned.map (fun t => Event.load t.ID) :=
    fun returned v => ⟨scanLoop_statusWrites writeErrs returned v,
      (scanLoop_frame writeErrs returned v).1, scanLoop_trackerOps writeErrs returned v⟩
  refine ⟨?_, hloop⟩
  have hok : (taskRepository.FindPendingTasksOlderThan queryOutcome w.taskRepo
      w.graceDuration).1 = .ok tasks := by rw [hquery]
  rw [scanPendingTasks_of_ok queryOutcome writeErrs w tasks hok]
  obtain ⟨h1, h2, h3⟩ := hloop tasks
    { w with taskRepo := w.taskRepo.emit (.findPendingTasksOlderThan w.graceDuration) }
  refine ⟨?_, h2, ?_⟩
  · rw [h1]
    simp [Env.emit, statusWrites]
  · rw [h3]
    simp [Env.emit, trackerOps]

/-- Witness for C9: the sweep over the mixed store writes for the two stale tasks. -/
theorem C9_scan_witness :
    statusWrites (mixedService.scanPendingTasks .complete
        (fun _ => some "timeout")).taskRepo.trace =
      [(pendingTask.ID, StatusCompleted), (staleTask.ID, StatusCompleted)] :=
  (C9_scan_writes_untracked_only (fun _ => some "timeout") mixedService .complete
    [pendingTask, staleTask]
    (mixedEnv.emit (.findPendingTasksOlderThan mixedService.graceDuration)) rfl).1.1

/-! ## Consequences of the primary key -/

theorem find_of_uniqueIDs (tasks : List Task) (huniq : uniqueIDs tasks) (t : Task)
    (ht : t ∈ tasks) : tasks.find? (fun x => x.ID == t.ID) = some t := by
  induction tasks with
  | nil => simp at ht
  | cons x rest ih =>
    unfold uniqueIDs at huniq
    simp only [List.map_cons, List.nodup_cons, List.mem_map, not_exists, not_and] at huniq
    rcases List.mem_cons.1 ht with h | h
    · subst h
      simp [List.find?_cons]
    · have hne : x.ID ≠ t.ID := fun hx => huniq.1 t h hx.symm
      have hb : (x.ID == t.ID) = false := by simpa using hne
      rw [List.find?_cons, hb]
      exact ih huniq.2 h

theorem eq_of_uniqueIDs (tasks : List Task) (huniq : uniqueIDs tasks) (a b : Task)
    (ha : a ∈ tasks) (hb : b ∈ tasks) (hid : a.ID = b.ID) : a = b := by
  have h1 := find_of_uniqueIDs tasks huniq a ha
  have h2 := find_of_uniqueIDs tasks huniq b hb
  rw [hid, h2] at h1
  exact (Option.some.inj h1).symm

theorem uniqueIDs_map (tasks : List Task) (f : Task → Task) (hf : ∀ t, (f t).ID = t.ID)
    (huniq : uniqueIDs tasks) : uniqueIDs (tasks.map f) := by
  unfold uniqueIDs at *
  rw [List.map_map]
  have : (fun t => t.ID) ∘ f = fun t => t.ID := funext hf
  rw [this]
  exact huniq

theorem found_of_find (tasks : List Task) (id : String) (task : Task)
    (h : tasks.find? (fun t => t.ID == id) = some task) : task ∈ tasks ∧ task.ID = id :=
  ⟨List.mem_of_find?_eq_some h, by simpa using List.find?_some h⟩

theorem not_swept_of_completed (writeErrs : Nat → Option String) (w : workerService)
    (task : Task) (hstored : task ∈ w.taskRepo.tasks) (hcompleted : task.Status = StatusCompleted)
    (huniq : uniqueIDs w.taskRepo.tasks) (cutoff : Time) (returned : List Task)
    (hsub : returned.Sublist (w.taskRepo.tasks.filter (fun t => decide (stale cutoff t)))) :
    task.ID ∉ sweptIDs writeErrs w.processedIDs returned := by
  intro hmem
  obtain ⟨_, t, ht, hid⟩ := mem_sweptIDs _ _ _ _ hmem
  have ht := hsub.subset ht
  simp only [List.mem_filter, decide_eq_true_eq] at ht
  have heq := eq_of_uniqueIDs _ huniq t task ht.1 hstored hid
  rw [heq] at ht
  rcases ht.2.1 with h | h
  · exact pending_ne_completed (h.symm.trans hcompleted)
  · exact inProgress_ne_completed (h.symm.trans hcompleted)

theorem processTask_tasks (readErr writeErr : Option String) (w : workerService)
    (taskID : String) :
    (w.processTask readErr writeErr taskID).taskRepo.tasks = w.taskRepo.tasks ∨
    ∃ task, w.taskRepo.tasks.find? (fun t => t.ID == taskID) = some task ∧
      (task.Status = StatusPending ∨ task.Status = StatusInProgress) ∧
      (w.processTask readErr writeErr taskID).taskRepo.tasks =
        w.taskRepo.tasks.map (fun t =>
          if t.ID = taskID then completeAt (w.taskRepo.now + max w.graceDuration 0) t else t) := by
  unfold workerService.processTask
  by_cases hmem : taskID ∈ w.processedIDs
  · left; simp [hmem, Env.emit]
  · cases readErr with
    | some e =>
      left
      simp [hmem, taskRepository.FindByID, workerService.sleep, Env.emit, Env.log]
    | none =>
      cases hfind : w.taskRepo.tasks.find? (fun t => t.ID == taskID) with
      | none =>
        left
        simp [hmem, taskRepository.FindByID, workerService.sleep, Env.emit, Env.log, hfind]
      | some task =>
        by_cases hst : task.Status = StatusPending ∨ task.Status = StatusInProgress
        · cases writeErr with
          | some e =>
            left
            simp [hmem, taskRepository.FindByID, taskRepository.UpdateStatus,
              workerService.sleep, Env.emit, Env.log, hfind, hst]
          | none =>
            right
            refine ⟨task, rfl, hst, ?_⟩
            simp [hmem, taskRepository.FindByID, taskRepository.UpdateStatus,
              workerService.sleep, Env.emit, Env.log, hfind, hst, completeAt,
              workerService.graceDuration]
        · left
          simp [hmem, taskRepository.FindByID, workerService.sleep, Env.emit, Env.log, hfind,
            hst]

/-! ## Idempotence on completed tasks -/

theorem scanPendingTasks_statusWrites (writeErrs : Nat → Option String) (w : workerService) :
    statusWrites (w.scanPendingTasks .complete writeErrs).taskRepo.trace =
      statusWrites w.taskRepo.trace ++
        ((w.taskRepo.tasks.filter
            (fun t => decide (stale (cutoffAt w.taskRepo.now w.graceDuration) t))).filter
          (fun t => decide (t.ID ∉ w.processedIDs))).map (fun t => (t.ID, StatusCompleted)) := by
  rw [scanPendingTasks_executed, scanLoop_statusWrites]
  simp [Env.emit, statusWrites]

/-- C5 (as amended): for a stored task whose status is completed (ids being unique),
`processTask` on its id issues no status write and leaves the task store unchanged, for
every read and write outcome and every tracker content; `scanPendingTasks` issues no status
write for that task and leaves that task's row exactly as it was, for every query and write
outcome. Neither method returns a value, so no error is raised. -/
theorem C5_completed_task_left_alone (w : workerService) (task : Task)
    (hstored : task ∈ w.taskRepo.tasks) (hcompleted : task.Status = StatusCompleted)
    (huniq : uniqueIDs w.taskRepo.tasks) :
    (∀ readErr writeErr : Option String,
      statusWrites (w.processTask readErr writeErr task.ID).taskRepo.trace =
        statusWrites w.taskRepo.trace ∧
      (w.processTask readErr writeErr task.ID).taskRepo.tasks = w.taskRepo.tasks) ∧
    (∀ (queryOutcome : RowsOutcome) (writeErrs : Nat → Option String),
      (∃ writes, statusWrites (w.scanPendingTasks queryOutcome writeErrs).taskRepo.trace =
          statusWrites w.taskRepo.trace ++ writes ∧
        ∀ status, (task.ID, status) ∉ writes) ∧
      task ∈ (w.scanPendingTasks queryOutcome writeErrs).taskRepo.tasks ∧
      (w.scanPendingTasks queryOutcome writeErrs).taskRepo.tasks.find?
        (fun t => t.ID == task.ID) = some task) := by
  have hfind := find_of_uniqueIDs _ huniq task hstored
  have hst : ¬ (task.Status = StatusPending ∨ task.Status = StatusInProgress) := by
    rw [hcompleted]
    intro h
    rcases h with h | h
    · exact pending_ne_completed h.symm
    · exact inProgress_ne_completed h.symm
  constructor
  · intro readErr writeErr
    unfold workerService.processTask
    by_cases hmem : task.ID ∈ w.processedIDs
    · simp [hmem, Env.emit, statusWrites]
    · cases readErr with
      | some e =>
        simp [hmem, taskRepository.FindByID, workerService.sleep, Env.emit, Env.log,
          statusWrites]
      | none =>
        simp [hmem, taskRepository.FindByID, workerService.sleep, Env.emit, Env.log,
          statusWrites, hfind, hst]
  · intro queryOutcome writeErrs
    obtain ⟨returned, hsub, htasks, hwrites, _⟩ :=
      scanPendingTasks_effect queryOutcome writeErrs w
    have hnot := not_swept_of_completed writeErrs w task hstored hcompleted huniq
      (cutoffAt w.taskRepo.now w.graceDuration) returned hsub
    have hrow : task ∈ (w.scanPendingTasks queryOutcome writeErrs).taskRepo.tasks := by
      rw [htasks]
      refine List.mem_map.2 ⟨task, hstored, ?_⟩
      simp only [hnot, if_false]
    have huniq' : uniqueIDs (w.scanPendingTasks queryOutcome writeErrs).taskRepo.tasks := by
      rw [htasks]
      apply uniqueIDs_map _ _ _ huniq
      intro t
      split <;> rfl
    refine ⟨⟨_, hwrites, ?_⟩, hrow, find_of_uniqueIDs _ huniq' task hrow⟩
    intro status hmem
    simp only [List.mem_map, List.mem_filter, decide_eq_true_eq, Prod.mk.injEq] at hmem
    obtain ⟨t, ⟨ht, _⟩, hid, _⟩ := hmem
    have ht := hsub.subset ht
    simp only [List.mem_filter, decide_eq_true_eq] at ht
    have heq := eq_of_uniqueIDs _ huniq t task ht.1 hstored hid
    rw [heq] at ht
    exact hst ht.2.1

/-- Witness for C5: `completedTask` in the mixed store survives a sweep as it is. -/
theorem C5_completed_task_witness :
    completedTask ∈ (mixedService.scanPendingTasks .complete (fun _ => none)).taskRepo.tasks ∧
    (mixedService.processTask none none completedTask.ID).taskRepo.tasks = mixedService.taskRepo.tasks :=
  have h := C5_completed_task_left_alone mixedService completedTask (by decide) rfl (by decide)
  ⟨(h.2 .complete (fun _ => none)).2.1, (h.1 none none).2⟩

/-- Counterexample to C5 as stated: the mixed store contains the completed task `completedTask`,
and a sweep over it changes the task store (it completes `pendingTask` and `staleTask`). -/
theorem C5_store_changes_counterexample :
    completedTask ∈ mixedService.taskRepo.tasks ∧
    completedTask.Status = StatusCompleted ∧
    (mixedService.scanPendingTasks .complete (fun _ => none)).taskRepo.tasks ≠
      mixedService.taskRepo.tasks ∧
    (mixedService.scanPendingTasks .complete (fun _ => none)).taskRepo.tasks =
      [completedTask, completeAt 1000000000000 pendingTask,
       completeAt 1000000000000 staleTask, freshTask] := by
  refine ⟨by decide, rfl, by decide, by decide⟩

/-! ## Status transitions -/

theorem workerTransition_completed (s : TaskStatus)
    (h : workerTransition StatusCompleted s) : s = StatusCompleted := by
  rcases h with h | ⟨_, h⟩
  · exact h
  · exact h

theorem find_after_rowUpdate (tasks : List Task) (id : String) (g : Task → Task)
    (hg : ∀ t, (g t).ID = t.ID) :
    (tasks.map (fun t => if t.ID = id then g t else t)).find? (fun t => t.ID == id) =
      (tasks.find? (fun t => t.ID == id)).map g := by
  induction tasks with
  | nil => rfl
  | cons t rest ih =>
    simp only [List.map_cons, List.find?_cons]
    by_cases h : t.ID = id
    · simp [h, hg]
    · have hb : (t.ID == id) = false := by simpa using h
      simp only [h, if_false, hb]
      exact ih

theorem taskService_Update_tasks (readErr writeErr : Option String) (env : Env) (id : String)
    (req : UpdateTaskRequest) (userID : String) (isAdmin : Bool) :
    (taskService.Update readErr writeErr env id req userID isAdmin).2.tasks = env.tasks ∨
    ∃ task, env.tasks.find? (fun t => t.ID == id) = some task ∧
      (isAdmin = true ∨ task.UserID = userID) ∧
      (∀ status, req.Status = some status → IsValid status = true) ∧
      (taskService.Update readErr writeErr env id req userID isAdmin).2.tasks =
        env.tasks.map (fun t =>
          if t.ID = id then
            { t with Title := req.Title.getD task.Title,
                     Description := req.Description.getD task.Description,
                     Status := req.Status.getD task.Status,
                     UpdatedAt := env.now }
          else t) := by
  unfold taskService.Update
  cases readErr with
  | some e => left; simp [taskRepository.FindByID, Env.emit]
  | none =>
    cases hfind : env.tasks.find? (fun t => t.ID == id) with
    | none => left; simp [taskRepository.FindByID, Env.emit, hfind]
    | some task =>
      have hid : task.ID = id := (found_of_find _ _ _ hfind).2
      by_cases hauth : isAdmin = true ∨ task.UserID = userID
      · have hguard : (!isAdmin && task.UserID != userID) = false := by
          rcases hauth with h | h
          · simp [h]
          · simp [h]
        rcases req with ⟨title, description, status⟩
        cases writeErr with
        | some e =>
          left
          cases title <;> cases description <;> cases status <;>
            simp [taskRepository.FindByID, taskRepository.Update, Env.emit, hfind, hguard] <;>
            split <;> simp
        | none =>
          cases status with
          | none =>
            right
            refine ⟨task, rfl, hauth, by simp, ?_⟩
            cases title <;> cases description <;>
              simp [taskRepository.FindByID, taskRepository.Update, Env.emit, hfind, hguard,
                hid]
          | some st =>
            by_cases hvalid : IsValid st = true
            · right
              refine ⟨task, rfl, hauth, by simpa using hvalid, ?_⟩
              cases title <;> cases description <;>
                simp [taskRepository.FindByID, taskRepository.Update, Env.emit, hfind, hguard,
                  hid, hvalid]
            · left
              simp [taskRepository.FindByID, Env.emit, hfind, hguard, hvalid]
      · left
        have hguard : (!isAdmin && task.UserID != userID) = true := by
          simp only [not_or] at hauth
          simp [hauth.1, hauth.2]
        simp [taskRepository.FindByID, Env.emit, hfind, hguard]

/-- C10 (as amended): with unique ids, `processTask` and `scanPendingTasks` change the
status of a stored row only from pending or in_progress to completed, so a completed row
keeps status completed under both, for every outcome of the store calls.
`taskService.Update` enforces no transition rule: whatever it changes, the new status of
the addressed row is the valid status supplied by the request, and for an authorised caller
and executed statements it stores any valid status the request supplies, whatever the
stored status (completed included). -/
theorem C10_transitions_of_each_operation (w : workerService)
    (huniq : uniqueIDs w.taskRepo.tasks) :
    (∀ (readErr writeErr : Option String) (taskID : String),
      statusesEvolve (fun t s' => workerTransition t.Status s') w.taskRepo.tasks
        (w.processTask readErr writeErr taskID).taskRepo.tasks) ∧
    (∀ (queryOutcome : RowsOutcome) (writeErrs : Nat → Option String),
      statusesEvolve (fun t s' => workerTransition t.Status s') w.taskRepo.tasks
        (w.scanPendingTasks queryOutcome writeErrs).taskRepo.tasks) ∧
    (∀ s' : TaskStatus, workerTransition StatusCompleted s' → s' = StatusCompleted) ∧
    (∀ (readErr writeErr : Option String) (id : String) (req : UpdateTaskRequest)
        (userID : String) (isAdmin : Bool),
      statusesEvolve
        (fun t s' => s' = t.Status ∨ (t.ID = id ∧ req.Status = some s' ∧ IsValid s' = true))
        w.taskRepo.tasks
        (taskService.Update readErr writeErr w.taskRepo id req userID isAdmin).2.tasks) ∧
    (∀ task ∈ w.taskRepo.tasks, ∀ (status : TaskStatus) (title description : Option String)
        (userID : String) (isAdmin : Bool),
      IsValid status = true → (isAdmin = true ∨ userID = task.UserID) →
      ((taskService.Update none none w.taskRepo task.ID
          { Title := title, Description := description, Status := some status }
          userID isAdmin).2.tasks.find? (fun t => t.ID == task.ID)).map (fun t => t.Status) =
        some status) := by
  have hsame : ∀ (step : Task → TaskStatus → Prop), (∀ t, step t t.Status) →
      statusesEvolve step w.taskRepo.tasks w.taskRepo.tasks := by
    intro step hstep
    unfold statusesEvolve
    rw [List.forall₂_same]
    exact fun t _ => ⟨rfl, hstep t⟩
  have hmap : ∀ (step : Task → TaskStatus → Prop) (f : Task → Task),
      (∀ t ∈ w.taskRepo.tasks, (f t).ID = t.ID ∧ step t (f t).Status) →
      statusesEvolve step w.taskRepo.tasks (w.taskRepo.tasks.map f) := by
    intro step f hf
    unfold statusesEvolve
    rw [List.forall₂_map_right_iff, List.forall₂_same]
    exact hf
  refine ⟨?_, ?_, workerTransition_completed, ?_, ?_⟩
  · intro readErr writeErr taskID
    rcases processTask_tasks readErr writeErr w taskID with h | ⟨task, hfind, hst, h⟩
    · rw [h]; exact hsame _ (fun t => Or.inl rfl)
    · rw [h]
      apply hmap
      intro t ht
      obtain ⟨hmem, hid⟩ := found_of_find _ _ _ hfind
      by_cases hx : t.ID = taskID
      · have heq := eq_of_uniqueIDs _ huniq t task ht hmem (hx.trans hid.symm)
        rw [if_pos hx]
        exact ⟨rfl, Or.inr ⟨heq ▸ hst, rfl⟩⟩
      · rw [if_neg hx]
        exact ⟨rfl, Or.inl rfl⟩
  · intro queryOutcome writeErrs
    obtain ⟨returned, hsub, htasks, _, _⟩ := scanPendingTasks_effect queryOutcome writeErrs w
    rw [htasks]
    apply hmap
    intro t ht
    beta_reduce
    by_cases hx : t.ID ∈ sweptIDs writeErrs w.processedIDs returned
    · obtain ⟨_, x, hxmem, hxid⟩ := mem_sweptIDs _ _ _ _ hx
      have hxmem := hsub.subset hxmem
      simp only [List.mem_filter, decide_eq_true_eq] at hxmem
      have heq := eq_of_uniqueIDs _ huniq x t hxmem.1 ht hxid
      rw [if_pos hx]
      exact ⟨rfl, Or.inr ⟨heq ▸ hxmem.2.1, rfl⟩⟩
    · rw [if_neg hx]
      exact ⟨rfl, Or.inl rfl⟩
  · intro readErr writeErr id req userID isAdmin
    rcases taskService_Update_tasks readErr writeErr w.taskRepo id req userID isAdmin with
      h | ⟨task, hfind, _, hvalid, h⟩
    · rw [h]; exact hsame _ (fun t => Or.inl rfl)
    · rw [h]
      apply hmap
      intro t ht
      obtain ⟨hmem, hid⟩ := found_of_find _ _ _ hfind
      by_cases hx : t.ID = id
      · have heq := eq_of_uniqueIDs _ huniq t task ht hmem (hx.trans hid.symm)
        rw [if_pos hx]
        refine ⟨rfl, ?_⟩
        cases hreq : req.Status with
        | none => left; rw [heq]; rfl
        | some st => right; exact ⟨hx, rfl, hvalid st hreq⟩
      · rw [if_neg hx]
        exact ⟨rfl, Or.inl rfl⟩
  · intro task hmem status title description userID isAdmin hvalid hauth
    have hfind := find_of_uniqueIDs _ huniq task hmem
    have hguard : (!isAdmin && task.UserID != userID) = false := by
      rcases hauth with h | h
      · simp [h]
      · simp [h]
    have htasks : (taskService.Update none none w.taskRepo task.ID
        { Title := title, Description := description, Status := some status }
        userID isAdmin).2.tasks =
        w.taskRepo.tasks.map (fun t =>
          if t.ID = task.ID then
            (fun t : Task => { t with Title := title.getD task.Title,
                                      Description := description.getD task.Description,
                                      Status := status, UpdatedAt := w.taskRepo.now }) t
          else t) := by
      unfold taskService.Update
      cases title <;> cases description <;>
        simp [taskRepository.FindByID, taskRepository.Update, Env.emit, hfind, hguard, hvalid]
    have hrow := find_after_rowUpdate w.taskRepo.tasks task.ID
      (fun t : Task => { t with Title := title.getD task.Title,
                                Description := description.getD task.Description,
                                Status := status, UpdatedAt := w.taskRepo.now })
      (fun _ => rfl)
    rw [htasks, hrow, hfind]
    rfl

/-- Witness for C10: in the mixed store the sweep leaves every row on an allowed
transition. -/
theorem C10_transitions_witness :
    statusesEvolve (fun t s' => workerTransition t.Status s') mixedService.taskRepo.tasks
      (mixedService.scanPendingTasks .complete (fun _ => none)).taskRepo.tasks :=
  (C10_transitions_of_each_operation mixedService (by decide)).2.1 .complete (fun _ => none)

/-- Counterexample to C10 as stated: the owner of the completed task `completedTask` sends
an update with status pending; `taskService.Update` succeeds and the stored status of that
task is pending afterwards, a change from completed to pending. -/
theorem C10_reopen_counterexample :
    completedTask ∈ mixedEnv.tasks ∧
    completedTask.Status = StatusCompleted ∧
    (taskService.Update none none mixedEnv completedTask.ID
        { Title := none, Description := none, Status := some StatusPending }
        completedTask.UserID false).1 =
      .ok { completedTask with Status := StatusPending, UpdatedAt := mixedEnv.now } ∧
    (taskService.Update none none mixedEnv completedTask.ID
        { Title := none, Description := none, Status := some StatusPending }
        completedTask.UserID false).2.tasks =
      [{ completedTask with Status := StatusPending, UpdatedAt := mixedEnv.now },
       pendingTask, staleTask, freshTask] ∧
    StatusPending ≠ StatusCompleted :=
  ⟨by decide, rfl, rfl, by decide, by decide⟩

/-! ## The status-only update -/

theorem processTask_ids (readErr writeErr : Option String) (w : workerService)
    (taskID : String) :
    (w.processTask readErr writeErr taskID).taskRepo.tasks.map (fun t => t.ID) =
      w.taskRepo.tasks.map (fun t => t.ID) := by
  rcases processTask_tasks readErr writeErr w taskID with h | ⟨_, _, _, h⟩
  · rw [h]
  · rw [h, List.map_map]
    apply List.map_congr_left
    intro t _
    simp only [Function.comp]
    split <;> rfl

theorem scanPendingTasks_ids (queryOutcome : RowsOutcome) (writeErrs : Nat → Option String)
    (w : workerService) :
    (w.scanPendingTasks queryOutcome writeErrs).taskRepo.tasks.map (fun t => t.ID) =
      w.taskRepo.tasks.map (fun t => t.ID) := by
  obtain ⟨returned, _, htasks, _, _⟩ := scanPendingTasks_effect queryOutcome writeErrs w
  rw [htasks, List.map_map]
  apply List.map_congr_left
  intro t _
  simp only [Function.comp]
  split <;> rfl

/-- C15: `UpdateStatus(id, s)` is status-only. Row by row, the table after the call keeps
the id, owner, title, description and creation time of every row; a row with another id is
unchanged; a row with that id gets status `s` and update time `now` when the statement is
executed; a failed statement changes no row. When no row has that id the table is
unchanged. Hence `processTask` and `scanPendingTasks`, whose only writes are status
updates, leave the list of stored ids as it was: no deleted task is created again. -/
theorem C15_UpdateStatus_status_only (dbErr : Option String) (env : Env) (id : String)
    (status : TaskStatus) :
    List.Forall₂
      (fun t t' =>
        t'.ID = t.ID ∧ t'.UserID = t.UserID ∧ t'.Title = t.Title ∧
        t'.Description = t.Description ∧ t'.CreatedAt = t.CreatedAt ∧
        (t.ID ≠ id → t' = t) ∧
        (t.ID = id → dbErr = none → t'.Status = status ∧ t'.UpdatedAt = env.now) ∧
        (dbErr ≠ none → t' = t))
      env.tasks (taskRepository.UpdateStatus dbErr env id status).2.tasks ∧
    ((∀ t ∈ env.tasks, t.ID ≠ id) →
      (taskRepository.UpdateStatus dbErr env id status).2.tasks = env.tasks) ∧
    (∀ (w : workerService) (readErr writeErr : Option String) (taskID : String),
      (w.processTask readErr writeErr taskID).taskRepo.tasks.map (fun t => t.ID) =
        w.taskRepo.tasks.map (fun t => t.ID)) ∧
    (∀ (w : workerService) (queryOutcome : RowsOutcome) (writeErrs : Nat → Option String),
      (w.scanPendingTasks queryOutcome writeErrs).taskRepo.tasks.map (fun t => t.ID) =
        w.taskRepo.tasks.map (fun t => t.ID)) := by
  refine ⟨?_, ?_, fun w readErr writeErr taskID => processTask_ids readErr writeErr w taskID,
    fun w queryOutcome writeErrs => scanPendingTasks_ids queryOutcome writeErrs w⟩
  · cases dbErr with
    | some e =>
      simp only [taskRepository.UpdateStatus, Env.emit]
      rw [List.forall₂_same]
      intro t _
      exact ⟨rfl, rfl, rfl, rfl, rfl, fun _ => rfl, fun _ h => by simp at h, fun _ => rfl⟩
    | none =>
      simp only [taskRepository.UpdateStatus, Env.emit]
      rw [List.forall₂_map_right_iff, List.forall₂_same]
      intro t _
      by_cases h : t.ID = id
      · simp [h]
      · simp [h]
  · intro hno
    cases dbErr with
    | some e => simp [taskRepository.UpdateStatus, Env.emit]
    | none =>
      simp only [taskRepository.UpdateStatus, Env.emit]
      conv_rhs => rw [← List.map_id env.tasks]
      apply List.map_congr_left
      intro t ht
      simp [hno t ht]

/-! ## Failure isolation and read-then-write -/

theorem FindPendingTasksOlderThan_executed (env : Env) (d : Duration) :
    taskRepository.FindPendingTasksOlderThan .complete env d =
      (.ok (env.tasks.filter (fun t => decide (stale (cutoffAt env.now d) t))),
       env.emit (.findPendingTasksOlderThan d)) := by
  rw [FindPendingTasksOlderThan_eq]
  rfl

theorem FindPendingTasksOlderThan_sublist (outcome : RowsOutcome) (env : Env) (d : Duration)
    (tasks : List Task)
    (h : (taskRepository.FindPendingTasksOlderThan outcome env d).1 = .ok tasks) :
    tasks.Sublist (env.tasks.filter (fun t => decide (stale (cutoffAt env.now d) t))) := by
  rw [FindPendingTasksOlderThan_eq] at h
  rcases readRows_cases outcome "failed to find pending tasks: "
      (env.tasks.filter (fun t => decide (stale (cutoffAt env.now d) t))) with
    ⟨err, herr⟩ | ⟨returned, hok, hsub⟩
  · simp only [herr] at h
    cases h
  · simp only [hok, Except.ok.injEq] at h
    exact h ▸ hsub

theorem mem_sweptIDs_of_index (writeErrs : Nat → Option String) (tracker : List String)
    (tasks : List Task) (i : Nat) (t : Task) (hi : tasks[i]? = some t)
    (huntracked : t.ID ∉ tracker) (hok : writeErrs i = none) :
    t.ID ∈ sweptIDs writeErrs tracker tasks := by
  induction tasks generalizing writeErrs i with
  | nil => simp at hi
  | cons task rest ih =>
    simp only [sweptIDs]
    cases i with
    | zero =>
      simp only [List.getElem?_cons_zero, Option.some.injEq] at hi
      subst hi
      simp [huntracked, hok]
    | succ j =>
      simp only [List.getElem?_cons_succ] at hi
      have := ih (fun i => writeErrs (i + 1)) j hi hok
      by_cases hc : task.ID ∉ tracker ∧ writeErrs 0 = none
      · rw [if_pos hc]; exact List.mem_cons_of_mem _ this
      · rw [if_neg hc]; exact this

/-- C16: in a sweep over the list `tasks` returned by the range query (however its
iteration ends), the status writes issued do not depend on which writes fail: whatever the
failure pattern they are `UpdateStatus(id, completed)` for every returned task with
untracked id, the same as in a sweep without failures, and every write the driver executes
takes effect although others failed. `scanPendingTasks` returns no value, so it reports no
error. Only a failing range query ends the sweep: then no write is issued, no row changes
and one line is logged, both when the statement fails and when a row cannot be read. -/
theorem C16_sweep_failure_isolation (writeErrs : Nat → Option String) (w : workerService)
    (queryOutcome : RowsOutcome) (tasks : List Task) (env : Env)
    (hquery :
      taskRepository.FindPendingTasksOlderThan queryOutcome w.taskRepo w.graceDuration =
        (.ok tasks, env)) :
    statusWrites (w.scanPendingTasks queryOutcome writeErrs).taskRepo.trace =
      statusWrites w.taskRepo.trace ++
        (tasks.filter (fun t => decide (t.ID ∉ w.processedIDs))).map
          (fun t => (t.ID, StatusCompleted)) ∧
    statusWrites (w.scanPendingTasks queryOutcome writeErrs).taskRepo.trace =
      statusWrites (w.scanPendingTasks queryOutcome (fun _ => none)).taskRepo.trace ∧
    (∀ (i : Nat) (t : Task), tasks[i]? = some t → t.ID ∉ w.processedIDs →
      writeErrs i = none →
      completeAt w.taskRepo.now t ∈
        (w.scanPendingTasks queryOutcome writeErrs).taskRepo.tasks) ∧
    (∀ e : String,
      statusWrites (w.scanPendingTasks (.queryFailed e) writeErrs).taskRepo.trace =
        statusWrites w.taskRepo.trace ∧
      (w.scanPendingTasks (.queryFailed e) writeErrs).taskRepo.tasks = w.taskRepo.tasks ∧
      (w.scanPendingTasks (.queryFailed e) writeErrs).taskRepo.logs =
        w.taskRepo.logs ++
          ["Error scanning pending tasks: " ++ ("failed to find pending tasks: " ++ e)]) ∧
    (∀ (failing : RowsOutcome) (err : String),
      (taskRepository.FindPendingTasksOlderThan failing w.taskRepo w.graceDuration).1 =
        .error err →
      statusWrites (w.scanPendingTasks failing writeErrs).taskRepo.trace =
        statusWrites w.taskRepo.trace ∧
      (w.scanPendingTasks failing writeErrs).taskRepo.tasks = w.taskRepo.tasks ∧
      (w.scanPendingTasks failing writeErrs).taskRepo.logs =
        w.taskRepo.logs ++ ["Error scanning pending tasks: " ++ err]) ∧
    ∀ (returned : List Task) (v : workerService),
      statusWrites (v.scanLoop writeErrs returned).taskRepo.trace =
        statusWrites (v.scanLoop (fun _ => none) returned).taskRepo.trace := by
  have hok : (taskRepository.FindPendingTasksOlderThan queryOutcome w.taskRepo
      w.graceDuration).1 = .ok tasks := by rw [hquery]
  have hsub := FindPendingTasksOlderThan_sublist queryOutcome w.taskRepo w.graceDuration
    tasks hok
  have hfail : ∀ (failing : RowsOutcome) (err : String),
      (taskRepository.FindPendingTasksOlderThan failing w.taskRepo w.graceDuration).1 =
        .error err →
      statusWrites (w.scanPendingTasks failing writeErrs).taskRepo.trace =
        statusWrites w.taskRepo.trace ∧
      (w.scanPendingTasks failing writeErrs).taskRepo.tasks = w.taskRepo.tasks ∧
      (w.scanPendingTasks failing writeErrs).taskRepo.logs =
        w.taskRepo.logs ++ ["Error scanning pending tasks: " ++ err] := by
    intro failing err h
    obtain ⟨h1, _, h3, h4⟩ := scanPendingTasks_failed failing err writeErrs w h
    exact ⟨h3, h1, h4⟩
  refine ⟨?_, ?_, ?_, ?_, hfail, ?_⟩
  · rw [scanPendingTasks_of_ok queryOutcome writeErrs w tasks hok, scanLoop_statusWrites]
    simp [Env.emit, statusWrites]
  · rw [scanPendingTasks_of_ok queryOutcome writeErrs w tasks hok,
      scanPendingTasks_of_ok queryOutcome (fun _ => none) w tasks hok,
      scanLoop_statusWrites, scanLoop_statusWrites]
  · intro i t hi huntracked hwrite
    rw [scanPendingTasks_of_ok queryOutcome writeErrs w tasks hok, scanLoop_tasks]
    have hstored : t ∈ w.taskRepo.tasks :=
      (List.mem_filter.1 (hsub.subset (List.getElem?_mem hi))).1
    refine List.mem_map.2 ⟨t, hstored, ?_⟩
    exact if_pos
      (mem_sweptIDs_of_index writeErrs w.processedIDs tasks i t hi huntracked hwrite)
  · intro e
    exact hfail (.queryFailed e) ("failed to find pending tasks: " ++ e) rfl
  · intro returned v
    rw [scanLoop_statusWrites, scanLoop_statusWrites]

/-- Witness for C16: the write for `pendingTask` fails, `staleTask` is completed all the
same and `pendingTask` stays as it was. -/
theorem C16_sweep_witness :
    completeAt 1000000000000 staleTask ∈
      (mixedService.scanPendingTasks .complete firstWriteFails).taskRepo.tasks ∧
    pendingTask ∈ (mixedService.scanPendingTasks .complete firstWriteFails).taskRepo.tasks :=
  ⟨(C16_sweep_failure_isolation firstWriteFails mixedService .complete
      [pendingTask, staleTask]
      (mixedEnv.emit (.findPendingTasksOlderThan mixedService.graceDuration)) rfl).2.2.1
      1 staleTask rfl (by decide) rfl,
   by decide⟩

theorem processTask_trace (readErr writeErr : Option String) (w : workerService)
    (taskID : String) :
    (taskID ∈ w.processedIDs ∧
      (w.processTask readErr writeErr taskID).taskRepo.trace =
        w.taskRepo.trace ++ [.loadOrStore taskID]) ∨
    (taskID ∉ w.processedIDs ∧
      (readErr ≠ none ∨ w.taskRepo.tasks.find? (fun t => t.ID == taskID) = none ∨
        ∃ task, w.taskRepo.tasks.find? (fun t => t.ID == taskID) = some task ∧
          ¬ (task.Status = StatusPending ∨ task.Status = StatusInProgress)) ∧
      (w.processTask readErr writeErr taskID).taskRepo.trace =
        w.taskRepo.trace ++
          [.loadOrStore taskID, .sleep w.graceDuration, .findByID taskID,
           .mapDelete taskID]) ∨
    (taskID ∉ w.processedIDs ∧ readErr = none ∧
      (∃ task, w.taskRepo.tasks.find? (fun t => t.ID == taskID) = some task ∧
        (task.Status = StatusPending ∨ task.Status = StatusInProgress)) ∧
      (w.processTask readErr writeErr taskID).taskRepo.trace =
        w.taskRepo.trace ++
          [.loadOrStore taskID, .sleep w.graceDuration, .findByID taskID,
           .updateStatus taskID StatusCompleted, .mapDelete taskID]) := by
  unfold workerService.processTask
  by_cases hmem : taskID ∈ w.processedIDs
  · left; simp [hmem, Env.emit]
  · right
    cases readErr with
    | some e =>
      left
      simp [hmem, taskRepository.FindByID, workerService.sleep, Env.emit, Env.log,
        workerService.graceDuration]
    | none =>
      cases hfind : w.taskRepo.tasks.find? (fun t => t.ID == taskID) with
      | none =>
        left
        simp [hmem, taskRepository.FindByID, workerService.sleep, Env.emit, Env.log, hfind,
          workerService.graceDuration]
      | some task =>
        by_cases hst : task.Status = StatusPending ∨ task.Status = StatusInProgress
        · right
          cases writeErr <;>
            simp [hmem, taskRepository.FindByID, taskRepository.UpdateStatus,
              workerService.sleep, Env.emit, Env.log, hfind, hst,
              workerService.graceDuration]
        · left
          simp [hmem, taskRepository.FindByID, workerService.sleep, Env.emit, Env.log, hfind,
            hst, workerService.graceDuration]
          exact not_or.1 hst

theorem find_other_after_rowUpdate (tasks : List Task) (a b : String) (g : Task → Task)
    (hg : ∀ t, (g t).ID = t.ID) (hne : a ≠ b) :
    (tasks.map (fun t => if t.ID = b then g t else t)).find? (fun t => t.ID == a) =
      tasks.find? (fun t => t.ID == a) := by
  induction tasks with
  | nil => rfl
  | cons t rest ih =>
    simp only [List.map_cons, List.find?_cons]
    by_cases h : t.ID = b
    · subst h
      have h2 : (t.ID == a) = false := by
        simpa using fun h' => hne h'.symm
      have h1 : ((g t).ID == a) = false := by
        rw [hg t]; exact h2
      simp only [if_true, h1, h2]
      exact ih
    · simp only [h, if_false]
      rw [ih]

theorem scanStep_find_other (writeErr : Option String) (task : Task) (w : workerService)
    (a : String) (hne : a ≠ task.ID) :
    (w.scanStep writeErr task).taskRepo.tasks.find? (fun t => t.ID == a) =
      w.taskRepo.tasks.find? (fun t => t.ID == a) := by
  rw [scanStep_tasks]
  split
  · exact find_other_after_rowUpdate _ a task.ID _ (fun _ => rfl) hne
  · rfl

theorem writeSources_ids (writeErrs : Nat → Option String) (tasks : List Task)
    (w : workerService) :
    (writeSources writeErrs tasks w).map (fun p => p.1) =
      (tasks.filter (fun t => decide (t.ID ∉ w.processedIDs))).map (fun t => t.ID) := by
  induction tasks generalizing writeErrs w with
  | nil => simp [writeSources]
  | cons task rest ih =>
    simp only [writeSources, List.map_append]
    rw [ih, (scanStep_frame (writeErrs 0) task w).1]
    by_cases h : task.ID ∈ w.processedIDs
    · simp [h]
    · simp [h]

theorem writeSources_non_terminal (writeErrs : Nat → Option String) (tasks : List Task)
    (w : workerService) (hnodup : (tasks.map (fun t => t.ID)).Nodup)
    (hstored : ∀ t ∈ tasks, ∃ x, w.taskRepo.tasks.find? (fun r => r.ID == t.ID) = some x ∧
      (x.Status = StatusPending ∨ x.Status = StatusInProgress)) :
    ∀ p ∈ writeSources writeErrs tasks w,
      p.2 = some StatusPending ∨ p.2 = some StatusInProgress := by
  induction tasks generalizing writeErrs w with
  | nil => simp [writeSources]
  | cons task rest ih =>
    simp only [List.map_cons, List.nodup_cons, List.mem_map, not_exists, not_and] at hnodup
    intro p hp
    simp only [writeSources, List.mem_append] at hp
    rcases hp with hp | hp
    · by_cases h : task.ID ∈ w.processedIDs
      · simp [h] at hp
      · simp only [h, if_false, List.mem_singleton] at hp
        obtain ⟨x, hx, hst⟩ := hstored task (List.mem_cons_self _ _)
        rw [hp, hx]
        rcases hst with hst | hst
        · left; simp [hst]
        · right; simp [hst]
    · refine ih _ _ hnodup.2 ?_ p hp
      intro t ht
      obtain ⟨x, hx, hst⟩ := hstored t (List.mem_cons_of_mem _ ht)
      refine ⟨x, ?_, hst⟩
      rw [scanStep_find_other _ _ _ _ (fun h => hnodup.1 t ht h)]
      exact hx

/-- C11: every status write of `processTask` and of `scanPendingTasks` has target completed
and follows a read by the same call that returned the task as pending or in_progress.
`processTask` issues at most one write, `UpdateStatus(id, completed)`, placed in the trace
right after its `FindByID(id)`, and only when that read found the task pending or
in_progress; for a task read with any other status it issues no write. Every write of
`scanPendingTasks` is `UpdateStatus(id, completed)` for a task of the list its range query
returned, and every task of such a list is stored with status pending or in_progress; with
unique ids the store still holds pending or in_progress for that id at the moment each
write of the sweep is issued. -/
theorem C11_read_then_write (w : workerService) :
    (∀ (readErr writeErr : Option String) (taskID : String),
      statusWrites (w.processTask readErr writeErr taskID).taskRepo.trace =
        statusWrites w.taskRepo.trace ∨
      (statusWrites (w.processTask readErr writeErr taskID).taskRepo.trace =
          statusWrites w.taskRepo.trace ++ [(taskID, StatusCompleted)] ∧
        readErr = none ∧
        (∃ task, w.taskRepo.tasks.find? (fun t => t.ID == taskID) = some task ∧
          (task.Status = StatusPending ∨ task.Status = StatusInProgress)) ∧
        (w.processTask readErr writeErr taskID).taskRepo.trace =
          w.taskRepo.trace ++
            [.loadOrStore taskID, .sleep w.graceDuration, .findByID taskID,
             .updateStatus taskID StatusCompleted, .mapDelete taskID])) ∧
    (∀ (readErr writeErr : Option String) (taskID : String) (task : Task),
      w.taskRepo.tasks.find? (fun t => t.ID == taskID) = some task →
      ¬ (task.Status = StatusPending ∨ task.Status = StatusInProgress) →
      statusWrites (w.processTask readErr writeErr taskID).taskRepo.trace =
        statusWrites w.taskRepo.trace) ∧
    (∀ (queryOutcome : RowsOutcome) (writeErrs : Nat → Option String),
      ∃ writes, statusWrites (w.scanPendingTasks queryOutcome writeErrs).taskRepo.trace =
          statusWrites w.taskRepo.trace ++ writes ∧
        ∀ id status, (id, status) ∈ writes →
          status = StatusCompleted ∧
          ∃ tasks t,
            (taskRepository.FindPendingTasksOlderThan queryOutcome w.taskRepo
              w.graceDuration).1 = .ok tasks ∧
            t ∈ tasks ∧ t.ID = id ∧
            (t.Status = StatusPending ∨ t.Status = StatusInProgress)) ∧
    (∀ (queryOutcome : RowsOutcome) (tasks : List Task) (env : Env),
      taskRepository.FindPendingTasksOlderThan queryOutcome w.taskRepo w.graceDuration =
        (.ok tasks, env) →
      ∀ t ∈ tasks, t ∈ w.taskRepo.tasks ∧
        (t.Status = StatusPending ∨ t.Status = StatusInProgress)) ∧
    (∀ (queryOutcome : RowsOutcome) (writeErrs : Nat → Option String) (tasks : List Task)
        (env : Env),
      uniqueIDs w.taskRepo.tasks →
      taskRepository.FindPendingTasksOlderThan queryOutcome w.taskRepo w.graceDuration =
        (.ok tasks, env) →
      (writeSources writeErrs tasks { w with taskRepo := env }).map (fun p => p.1) =
        (tasks.filter (fun t => decide (t.ID ∉ w.processedIDs))).map (fun t => t.ID) ∧
      ∀ p ∈ writeSources writeErrs tasks { w with taskRepo := env },
        p.2 = some StatusPending ∨ p.2 = some StatusInProgress) := by
  refine ⟨?_, ?_, ?_, ?_, ?_⟩
  · intro readErr writeErr taskID
    rcases processTask_trace readErr writeErr w taskID with
      ⟨_, h⟩ | ⟨_, _, h⟩ | ⟨_, hread, hfound, h⟩
    · left; rw [h]; simp [statusWrites]
    · left; rw [h]; simp [statusWrites]
    · right
      refine ⟨?_, hread, hfound, h⟩
      rw [h]; simp [statusWrites]
  · intro readErr writeErr taskID task hfind hst
    rcases processTask_trace readErr writeErr w taskID with
      ⟨_, h⟩ | ⟨_, _, h⟩ | ⟨_, _, ⟨task', hfind', hst'⟩, _⟩
    · rw [h]; simp [statusWrites]
    · rw [h]; simp [statusWrites]
    · rw [hfind] at hfind'
      exact absurd ((Option.some.inj hfind') ▸ hst') hst
  · intro queryOutcome writeErrs
    cases hq : (taskRepository.FindPendingTasksOlderThan queryOutcome w.taskRepo
        w.graceDuration).1 with
    | error err =>
      exact ⟨[], by
        rw [(scanPendingTasks_failed queryOutcome err writeErrs w hq).2.2.1, List.append_nil],
        fun _ _ h => absurd h (List.not_mem_nil _)⟩
    | ok tasks =>
      have hsub := FindPendingTasksOlderThan_sublist queryOutcome w.taskRepo w.graceDuration
        tasks hq
      refine ⟨(tasks.filter (fun t => decide (t.ID ∉ w.processedIDs))).map
        (fun t => (t.ID, StatusCompleted)), ?_, ?_⟩
      · rw [scanPendingTasks_of_ok queryOutcome writeErrs w tasks hq, scanLoop_statusWrites]
        simp [Env.emit, statusWrites]
      · intro id status hmem
        simp only [List.mem_map, List.mem_filter, decide_eq_true_eq, Prod.mk.injEq] at hmem
        obtain ⟨t, ⟨ht, _⟩, hid, hstatus⟩ := hmem
        have hstale := hsub.subset ht
        simp only [List.mem_filter, decide_eq_true_eq] at hstale
        exact ⟨hstatus.symm, tasks, t, rfl, ht, hid, hstale.2.1⟩
  · intro queryOutcome tasks env hquery t ht
    have hok : (taskRepository.FindPendingTasksOlderThan queryOutcome w.taskRepo
        w.graceDuration).1 = .ok tasks := by rw [hquery]
    have hstale := (FindPendingTasksOlderThan_sublist queryOutcome w.taskRepo
      w.graceDuration tasks hok).subset ht
    simp only [List.mem_filter, decide_eq_true_eq] at hstale
    exact ⟨hstale.1, hstale.2.1⟩
  · intro queryOutcome writeErrs tasks env huniq hquery
    have hok : (taskRepository.FindPendingTasksOlderThan queryOutcome w.taskRepo
        w.graceDuration).1 = .ok tasks := by rw [hquery]
    have hsub := FindPendingTasksOlderThan_sublist queryOutcome w.taskRepo w.graceDuration
      tasks hok
    rw [FindPendingTasksOlderThan_eq] at hquery
    simp only [Prod.mk.injEq] at hquery
    obtain ⟨_, henv⟩ := hquery
    refine ⟨writeSources_ids writeErrs tasks _, ?_⟩
    apply writeSources_non_terminal
    · exact List.Nodup.sublist ((hsub.trans (List.filter_sublist _)).map _) huniq
    · intro t ht
      have hstale := hsub.subset ht
      simp only [List.mem_filter, decide_eq_true_eq] at hstale
      refine ⟨t, ?_, hstale.2.1⟩
      rw [← henv]
      exact find_of_uniqueIDs _ huniq t hstale.1

/-! ## The status domain -/

theorem IsValid_iff (ts : TaskStatus) :
    IsValid ts = true ↔
      ts = StatusPending ∨ ts = StatusInProgress ∨ ts = StatusCompleted := by
  unfold IsValid
  by_cases h : ts = StatusPending ∨ ts = StatusInProgress ∨ ts = StatusCompleted
  · simp [h]
  · simp [h]

theorem taskService_Create_tasks (writeErr : Option String) (env : Env) (newID : String)
    (req : CreateTaskRequest) (userID : String) :
    (taskService.Create writeErr env newID req userID).2.tasks =
      match writeErr with
      | some _ => env.tasks
      | none =>
        env.tasks ++
          [{ ID := newID, UserID := userID, Title := req.Title, Description := req.Description,
             Status := StatusPending, CreatedAt := env.now, UpdatedAt := env.now }] := by
  cases writeErr <;> simp [taskService.Create, taskRepository.Create, Env.emit]

theorem taskService_Delete_tasks (readErr writeErr : Option String) (env : Env)
    (id userID : String) (isAdmin : Bool) :
    (taskService.Delete readErr writeErr env id userID isAdmin).2.tasks = env.tasks ∨
    (taskService.Delete readErr writeErr env id userID isAdmin).2.tasks =
      env.tasks.filter (fun t => t.ID != id) := by
  unfold taskService.Delete
  cases readErr with
  | some e => left; simp [taskRepository.FindByID, Env.emit]
  | none =>
    cases hfind : env.tasks.find? (fun t => t.ID == id) with
    | none => left; simp [taskRepository.FindByID, Env.emit, hfind]
    | some task =>
      by_cases hguard : (!isAdmin && task.UserID != userID) = true
      · left; simp [taskRepository.FindByID, Env.emit, hfind, hguard]
      · cases writeErr with
        | some e =>
          left
          simp [taskRepository.FindByID, taskRepository.Delete, Env.emit, hfind, hguard]
        | none =>
          right
          simp [taskRepository.FindByID, taskRepository.Delete, Env.emit, hfind, hguard]

theorem taskService_Update_invalid (readErr writeErr : Option String) (env : Env)
    (id : String) (title description : Option String) (status : TaskStatus)
    (userID : String) (isAdmin : Bool) (hinvalid : IsValid status = false) :
    (∃ err, (taskService.Update readErr writeErr env id
        { Title := title, Description := description, Status := some status }
        userID isAdmin).1 = .error err) ∧
    (taskService.Update readErr writeErr env id
        { Title := title, Description := description, Status := some status }
        userID isAdmin).2 = env.emit (.findByID id) := by
  unfold taskService.Update
  cases readErr with
  | some e => simp [taskRepository.FindByID]
  | none =>
    cases hfind : env.tasks.find? (fun t => t.ID == id) with
    | none => simp [taskRepository.FindByID, Env.emit, hfind]
    | some task =>
      by_cases hguard : (!isAdmin && task.UserID != userID) = true
      · simp [taskRepository.FindByID, Env.emit, hfind, hguard]
      · cases title <;> cases description <;>
          simp [taskRepository.FindByID, Env.emit, hfind, hguard, hinvalid]

/-- C14: if every stored task has a status in {pending, in_progress, completed}, the same
holds after `taskService.Create`, `taskService.Update` (any request, an unrecognised status
string included), `taskService.Delete`, `processTask` and `scanPendingTasks`, for every
outcome of the store calls. An executed `Create` appends the new task with status pending,
and `Update` with a status outside the three values returns an error, issues no write and
changes no row. -/
theorem C14_status_domain_invariant (w : workerService)
    (hvalid : validStatuses w.taskRepo.tasks) :
    (∀ (writeErr : Option String) (newID : String) (req : CreateTaskRequest)
        (userID : String),
      validStatuses (taskService.Create writeErr w.taskRepo newID req userID).2.tasks) ∧
    (∀ (readErr writeErr : Option String) (id : String) (req : UpdateTaskRequest)
        (userID : String) (isAdmin : Bool),
      validStatuses
        (taskService.Update readErr writeErr w.taskRepo id req userID isAdmin).2.tasks) ∧
    (∀ (readErr writeErr : Option String) (id userID : String) (isAdmin : Bool),
      validStatuses
        (taskService.Delete readErr writeErr w.taskRepo id userID isAdmin).2.tasks) ∧
    (∀ (readErr writeErr : Option String) (taskID : String),
      validStatuses (w.processTask readErr writeErr taskID).taskRepo.tasks) ∧
    (∀ (queryOutcome : RowsOutcome) (writeErrs : Nat → Option String),
      validStatuses (w.scanPendingTasks queryOutcome writeErrs).taskRepo.tasks) ∧
    (∀ (newID : String) (req : CreateTaskRequest) (userID : String),
      (taskService.Create none w.taskRepo newID req userID).2.tasks =
        w.taskRepo.tasks ++
          [{ ID := newID, UserID := userID, Title := req.Title,
             Description := req.Description, Status := StatusPending,
             CreatedAt := w.taskRepo.now, UpdatedAt := w.taskRepo.now }]) ∧
    (∀ (readErr writeErr : Option String) (id : String) (title description : Option String)
        (status : TaskStatus) (userID : String) (isAdmin : Bool),
      ¬ (status = StatusPending ∨ status = StatusInProgress ∨ status = StatusCompleted) →
      (∃ err, (taskService.Update readErr writeErr w.taskRepo id
          { Title := title, Description := description, Status := some status }
          userID isAdmin).1 = .error err) ∧
      (taskService.Update readErr writeErr w.taskRepo id
          { Title := title, Description := description, Status := some status }
          userID isAdmin).2.tasks = w.taskRepo.tasks ∧
      rowWrites (taskService.Update readErr writeErr w.taskRepo id
          { Title := title, Description := description, Status := some status }
          userID isAdmin).2.trace = rowWrites w.taskRepo.trace) := by
  have hcompleted : ∀ (n : Time) (ids : List String),
      validStatuses (w.taskRepo.tasks.map (fun t =>
        if t.ID ∈ ids then completeAt n t else t)) := by
    intro n ids t' ht'
    obtain ⟨t, ht, rfl⟩ := List.mem_map.1 ht'
    by_cases h : t.ID ∈ ids
    · rw [if_pos h]; exact Or.inr (Or.inr rfl)
    · rw [if_neg h]; exact hvalid t ht
  refine ⟨?_, ?_, ?_, ?_, ?_, ?_, ?_⟩
  · intro writeErr newID req userID
    rw [taskService_Create_tasks]
    cases writeErr with
    | some e => exact hvalid
    | none =>
      intro t ht
      rcases List.mem_append.1 ht with h | h
      · exact hvalid t h
      · rw [List.mem_singleton.1 h]; exact Or.inl rfl
  · intro readErr writeErr id req userID isAdmin
    rcases taskService_Update_tasks readErr writeErr w.taskRepo id req userID isAdmin with
      h | ⟨task, hfind, _, hreq, h⟩
    · rw [h]; exact hvalid
    · rw [h]
      intro t' ht'
      obtain ⟨t, ht, rfl⟩ := List.mem_map.1 ht'
      by_cases hx : t.ID = id
      · rw [if_pos hx]
        cases hst : req.Status with
        | none => exact hvalid task (found_of_find _ _ _ hfind).1
        | some st => exact (IsValid_iff st).1 (hreq st hst)
      · rw [if_neg hx]; exact hvalid t ht
  · intro readErr writeErr id userID isAdmin
    rcases taskService_Delete_tasks readErr writeErr w.taskRepo id userID isAdmin with h | h
    · rw [h]; exact hvalid
    · rw [h]
      intro t ht
      exact hvalid t (List.mem_filter.1 ht).1
  · intro readErr writeErr taskID
    rcases processTask_tasks readErr writeErr w taskID with h | ⟨_, _, _, h⟩
    · rw [h]; exact hvalid
    · rw [h]
      have := hcompleted (w.taskRepo.now + max w.graceDuration 0) [taskID]
      simpa using this
  · intro queryOutcome writeErrs
    obtain ⟨returned, _, htasks, _, _⟩ := scanPendingTasks_effect queryOutcome writeErrs w
    rw [htasks]
    exact hcompleted _ _
  · intro newID req userID
    rw [taskService_Create_tasks]
  · intro readErr writeErr id title description status userID isAdmin hnot
    have hinvalid : IsValid status = false := by
      cases h : IsValid status with
      | false => rfl
      | true => exact absurd ((IsValid_iff status).1 h) hnot
    obtain ⟨herr, henv⟩ := taskService_Update_invalid readErr writeErr w.taskRepo id title
      description status userID isAdmin hinvalid
    refine ⟨herr, ?_, ?_⟩
    · rw [henv]; rfl
    · rw [henv]; simp [Env.emit, rowWrites]

/-- Witness for C14: the mixed store has valid statuses and keeps them under a sweep. -/
theorem C14_status_domain_witness :
    validStatuses (mixedService.scanPendingTasks .complete (fun _ => none)).taskRepo.tasks :=
  (C14_status_domain_invariant mixedService (by decide)).2.2.2.2.1 .complete (fun _ => none)

/-! ## Authorisation and partial update -/

/-- C17: when the lookup is executed and returns a task owned by another user, `Update`
(any request) and `Delete` by a non-admin caller return the error `unauthorized access`;
when it returns no task both return `task not found`, whatever the role. In both cases
nothing but the lookup is issued: the environment afterwards is the one before with the
`FindByID` call recorded, so the task store is unchanged. -/
theorem C17_mutations_guarded (env : Env) (id userID : String) (writeErr : Option String)
    (req : UpdateTaskRequest) :
    (∀ task, env.tasks.find? (fun t => t.ID == id) = some task → task.UserID ≠ userID →
      (taskService.Update none writeErr env id req userID false).1 =
        .error "unauthorized access" ∧
      (taskService.Update none writeErr env id req userID false).2 =
        env.emit (.findByID id) ∧
      (taskService.Delete none writeErr env id userID false).1 =
        some "unauthorized access" ∧
      (taskService.Delete none writeErr env id userID false).2 =
        env.emit (.findByID id) ∧
      (env.emit (.findByID id)).tasks = env.tasks) ∧
    (env.tasks.find? (fun t => t.ID == id) = none → ∀ isAdmin : Bool,
      (taskService.Update none writeErr env id req userID isAdmin).1 =
        .error "task not found" ∧
      (taskService.Update none writeErr env id req userID isAdmin).2 =
        env.emit (.findByID id) ∧
      (taskService.Delete none writeErr env id userID isAdmin).1 =
        some "task not found" ∧
      (taskService.Delete none writeErr env id userID isAdmin).2 =
        env.emit (.findByID id) ∧
      (env.emit (.findByID id)).tasks = env.tasks) := by
  constructor
  · intro task hfind howner
    simp [taskService.Update, taskService.Delete, taskRepository.FindByID, Env.emit, hfind,
      howner]
  · intro hfind isAdmin
    simp [taskService.Update, taskService.Delete, taskRepository.FindByID, Env.emit, hfind]

/-- Witness for C17: a non-admin user who does not own `staleTask` may neither update nor
delete it. -/
theorem C17_mutations_witness :
    (taskService.Update none none mixedEnv staleTask.ID
        { Title := some "mine", Description := none, Status := none }
        pendingTask.UserID false).1 = .error "unauthorized access" ∧
    (taskService.Delete none none mixedEnv staleTask.ID pendingTask.UserID false).2.tasks =
      mixedEnv.tasks :=
  have h := (C17_mutations_guarded mixedEnv staleTask.ID pendingTask.UserID none
    { Title := some "mine", Description := none, Status := none }).1 staleTask rfl (by decide)
  ⟨h.1, h.2.2.2.1 ▸ h.2.2.2.2⟩

theorem taskService_Update_executed (env : Env) (id : String) (task : Task)
    (req : UpdateTaskRequest) (userID : String) (isAdmin : Bool)
    (hfound : env.tasks.find? (fun t => t.ID == id) = some task)
    (hauth : isAdmin = true ∨ task.UserID = userID)
    (hvalid : ∀ status, req.Status = some status → IsValid status = true) :
    (taskService.Update none none env id req userID isAdmin).1 =
      .ok (updatedRow req env.now task) ∧
    (taskService.Update none none env id req userID isAdmin).2.tasks =
      env.tasks.map (fun t =>
        if t.ID = id then
          { t with Title := req.Title.getD task.Title,
                   Description := req.Description.getD task.Description,
                   Status := req.Status.getD task.Status,
                   UpdatedAt := env.now }
        else t) := by
  have hid : task.ID = id := (found_of_find _ _ _ hfound).2
  have hguard : (!isAdmin && task.UserID != userID) = false := by
    rcases hauth with h | h
    · simp [h]
    · simp [h]
  rcases req with ⟨title, description, status⟩
  unfold taskService.Update updatedRow
  cases status with
  | none =>
    cases title <;> cases description <;>
      simp [taskRepository.FindByID, taskRepository.Update, Env.emit, hfound, hguard, hid]
  | some st =>
    have hst : IsValid st = true := hvalid st rfl
    cases title <;> cases description <;>
      simp [taskRepository.FindByID, taskRepository.Update, Env.emit, hfound, hguard, hid,
        hst]

/-- C18 (as amended): for a task the lookup returns and an authorised caller (admin or
owner), an executed `taskService.Update` whose status, if supplied, is valid returns and
stores the row `updatedRow req now task`: title, description and status are the supplied
values or, when absent, the stored ones, the update time is set to `now` on every such call,
and id, owner and creation time are kept. Rows with another id are not modified. When the
supplied status is not valid the call returns `invalid status` and nothing but the lookup
is issued, whatever title or description the request carries. -/
theorem C18_partial_update (env : Env) (id : String) (task : Task) (req : UpdateTaskRequest)
    (userID : String) (isAdmin : Bool)
    (hfound : env.tasks.find? (fun t => t.ID == id) = some task)
    (hauth : isAdmin = true ∨ task.UserID = userID) :
    ((∀ status, req.Status = some status → IsValid status = true) →
      (taskService.Update none none env id req userID isAdmin).1 =
        .ok (updatedRow req env.now task) ∧
      (taskService.Update none none env id req userID isAdmin).2.tasks.find?
        (fun t => t.ID == id) = some (updatedRow req env.now task) ∧
      List.Forall₂
        (fun t t' =>
          t'.ID = t.ID ∧ t'.UserID = t.UserID ∧ t'.CreatedAt = t.CreatedAt ∧
          (t.ID ≠ id → t' = t) ∧
          (t.ID = id →
            t'.Title = req.Title.getD task.Title ∧
            t'.Description = req.Description.getD task.Description ∧
            t'.Status = req.Status.getD task.Status ∧ t'.UpdatedAt = env.now))
        env.tasks (taskService.Update none none env id req userID isAdmin).2.tasks) ∧
    (updatedRow req env.now task).ID = task.ID ∧
    (updatedRow req env.now task).UserID = task.UserID ∧
    (updatedRow req env.now task).CreatedAt = task.CreatedAt ∧
    (∀ status, req.Status = some status → IsValid status = false →
      ∀ writeErr : Option String,
        (taskService.Update none writeErr env id req userID isAdmin).1 =
          .error "invalid status" ∧
        (taskService.Update none writeErr env id req userID isAdmin).2 =
          env.emit (.findByID id) ∧
        (env.emit (.findByID id)).tasks = env.tasks) := by
  refine ⟨?_, rfl, rfl, rfl, ?_⟩
  · intro hvalid
    obtain ⟨hres, htasks⟩ :=
      taskService_Update_executed env id task req userID isAdmin hfound hauth hvalid
    refine ⟨hres, ?_, ?_⟩
    · have hrow := find_after_rowUpdate env.tasks id
        (fun t : Task => { t with Title := req.Title.getD task.Title,
                                  Description := req.Description.getD task.Description,
                                  Status := req.Status.getD task.Status,
                                  UpdatedAt := env.now })
        (fun _ => rfl)
      rw [htasks, hrow, hfound]
      rfl
    · rw [htasks, List.forall₂_map_right_iff, List.forall₂_same]
      intro t _
      by_cases hx : t.ID = id
      · simp [hx]
      · simp [hx]
  · intro status hst hinvalid writeErr
    have hguard : (!isAdmin && task.UserID != userID) = false := by
      rcases hauth with h | h
      · simp [h]
      · simp [h]
    rcases req with ⟨title, description, status'⟩
    simp only at hst
    subst hst
    unfold taskService.Update
    cases title <;> cases description <;>
      simp [taskRepository.FindByID, Env.emit, hfound, hguard, hinvalid]

/-- Witness for C18: the owner of `pendingTask` changes only its title. -/
theorem C18_partial_update_witness :
    (taskService.Update none none mixedEnv pendingTask.ID
        { Title := some "rewrite", Description := none, Status := none }
        pendingTask.UserID false).1 =
      .ok { pendingTask with Title := "rewrite", UpdatedAt := mixedEnv.now } :=
  ((C18_partial_update mixedEnv pendingTask.ID pendingTask
    { Title := some "rewrite", Description := none, Status := none }
    pendingTask.UserID false rfl (Or.inr rfl)).1 (by simp)).1

/-- Counterexample to C18 as stated: the owner of `pendingTask` sends a request that
supplies no field; the call succeeds and the stored row differs from the one before, its
update time having moved from 0 to the current time. -/
theorem C18_update_time_counterexample :
    (taskService.Update none none mixedEnv pendingTask.ID
        { Title := none, Description := none, Status := none }
        pendingTask.UserID false).2.tasks =
      [completedTask, { pendingTask with UpdatedAt := 1000000000000 }, staleTask, freshTask] ∧
    (taskService.Update none none mixedEnv pendingTask.ID
        { Title := none, Description := none, Status := none }
        pendingTask.UserID false).2.tasks ≠ mixedEnv.tasks ∧
    pendingTask.UpdatedAt = 0 := by
  refine ⟨by decide, by decide, rfl⟩

/-! ## Role-based visibility -/

theorem stepTask_atLoadOrStore (dbErr : Option String) (taskID : String)
    (w : workerService) :
    workerService.stepTask dbErr taskID w Pc.atLoadOrStore =
      if taskID ∈ w.processedIDs then
        ({ w with taskRepo := w.taskRepo.emit (.loadOrStore taskID) }, Pc.returned)
      else
        ({ w with taskRepo := w.taskRepo.emit (.loadOrStore taskID),
                  processedIDs := taskID :: w.processedIDs }, Pc.atSleep) := by
  simp only [workerService.stepTask]

theorem runTask_eq_processTask (readErr writeErr : Option String) (w : workerService)
    (taskID : String) :
    workerService.runTask taskID [none, none, readErr, writeErr, none]
        (w, Pc.atLoadOrStore) =
      (w.processTask readErr writeErr taskID, Pc.returned) := by
  unfold workerService.processTask
  simp only [workerService.runTask, stepTask_atLoadOrStore]
  by_cases hmem : taskID ∈ w.processedIDs
  · simp [hmem, workerService.stepTask]
  · simp only [hmem, if_false, workerService.stepTask]
    cases readErr with
    | some e =>
      simp [workerService.stepTask, taskRepository.FindByID, workerService.graceDuration]
    | none =>
      cases hfind : w.taskRepo.tasks.find? (fun t => t.ID == taskID) with
      | none =>
        simp [workerService.stepTask, taskRepository.FindByID, workerService.graceDuration,
          workerService.sleep, Env.emit, hfind]
      | some task =>
        by_cases hst : task.Status = StatusPending ∨ task.Status = StatusInProgress
        · cases writeErr <;>
            simp [workerService.stepTask, taskRepository.FindByID,
              taskRepository.UpdateStatus, workerService.graceDuration, workerService.sleep,
              Env.emit, hfind, hst]
        · simp [workerService.stepTask, taskRepository.FindByID,
            workerService.graceDuration, workerService.sleep, Env.emit, hfind, hst]

theorem stepTask_cases (dbErr : Option String) (taskID : String) (w : workerService)
    (pc : Pc) :
    (pc = Pc.atLoadOrStore ∧ taskID ∈ w.processedIDs ∧
      (workerService.stepTask dbErr taskID w pc).2 = Pc.returned ∧
      (workerService.stepTask dbErr taskID w pc).1.processedIDs = w.processedIDs) ∨
    (pc = Pc.atLoadOrStore ∧ taskID ∉ w.processedIDs ∧
      (workerService.stepTask dbErr taskID w pc).2 = Pc.atSleep ∧
      (workerService.stepTask dbErr taskID w pc).1.processedIDs =
        taskID :: w.processedIDs) ∨
    (pc.inFlight = true ∧ pc ≠ Pc.atDelete ∧
      (workerService.stepTask dbErr taskID w pc).2.inFlight = true ∧
      (workerService.stepTask dbErr taskID w pc).1.processedIDs = w.processedIDs) ∨
    (pc = Pc.atDelete ∧
      (workerService.stepTask dbErr taskID w pc).2 = Pc.returned ∧
      (workerService.stepTask dbErr taskID w pc).1.processedIDs =
        workerService.deleteKey w.processedIDs taskID) ∨
    (pc = Pc.returned ∧ workerService.stepTask dbErr taskID w pc = (w, Pc.returned)) := by
  cases pc with
  | atLoadOrStore =>
    rw [stepTask_atLoadOrStore]
    by_cases h : taskID ∈ w.processedIDs
    · left; simp [h]
    · right; left; simp [h]
  | atSleep => right; right; left; simp [workerService.stepTask, Pc.inFlight]
  | atFindByID =>
    right; right; left
    simp only [workerService.stepTask, taskRepository.FindByID]
    cases dbErr with
    | some e => simp [Pc.inFlight]
    | none =>
      cases hfind : w.taskRepo.tasks.find? (fun t => t.ID == taskID) with
      | none => simp [Pc.inFlight, Env.emit, hfind]
      | some task =>
        by_cases hst : task.Status = StatusPending ∨ task.Status = StatusInProgress
        · simp [Pc.inFlight, Env.emit, hfind, hst]
        · simp [Pc.inFlight, Env.emit, hfind, hst]
  | atUpdateStatus =>
    right; right; left
    cases dbErr <;> simp [workerService.stepTask, taskRepository.UpdateStatus, Pc.inFlight]
  | atDelete => right; right; right; left; simp [workerService.stepTask]
  | returned => right; right; right; right; simp [workerService.stepTask]

theorem not_mem_deleteKey (keys : List String) (key : String) :
    key ∉ workerService.deleteKey keys key := by
  simp [workerService.deleteKey]


theorem pool_step_invariant (taskID : String) (p : Pool) (move : Nat × Option String)
    (hle : p.pcs.countP Pc.inFlight ≤ 1)
    (hzero : taskID ∉ p.shared.processedIDs → p.pcs.countP Pc.inFlight = 0) :
    (Pool.step taskID p move).pcs.countP Pc.inFlight ≤ 1 ∧
    (taskID ∉ (Pool.step taskID p move).shared.processedIDs →
      (Pool.step taskID p move).pcs.countP Pc.inFlight = 0) := by
  unfold Pool.step
  cases hpc : p.pcs[move.1]? with
  | none => exact ⟨hle, hzero⟩
  | some pc =>
    obtain ⟨hlt, hget⟩ := List.getElem?_eq_some.1 hpc
    have hcount := List.countP_set Pc.inFlight p.pcs move.1
      (workerService.stepTask move.2 taskID p.shared pc).2 hlt
    have hbool := List.boole_getElem_le_countP Pc.inFlight p.pcs move.1 hlt
    rw [hget] at hcount hbool
    simp only
    rcases stepTask_cases move.2 taskID p.shared pc with
      ⟨hp, _, hnext, hids⟩ | ⟨hp, hk, hnext, hids⟩ | ⟨hp, _, hnext, hids⟩ |
      ⟨hp, hnext, hids⟩ | ⟨hp, hnext⟩
    · rw [hnext] at hcount ⊢
      rw [hp] at hcount
      simp only [Pc.inFlight, Bool.false_eq_true, if_false] at hcount
      rw [hcount, hids]
      exact ⟨by omega, fun h => by have := hzero h; omega⟩
    · rw [hnext] at hcount ⊢
      rw [hp] at hcount
      simp only [Pc.inFlight, Bool.false_eq_true, if_false, if_true] at hcount
      have h0 := hzero hk
      rw [hcount, hids]
      exact ⟨by omega, fun h => absurd (List.mem_cons_self _ _) h⟩
    · rw [hnext, hp] at hcount
      rw [hp] at hbool
      simp only [if_true] at hcount hbool
      rw [hcount, hids]
      exact ⟨by omega, fun h => by have := hzero h; omega⟩
    · rw [hnext] at hcount ⊢
      rw [hp] at hcount hbool
      simp only [Pc.inFlight, Bool.false_eq_true, if_false, if_true] at hcount hbool
      rw [hcount]
      exact ⟨by omega, fun _ => by omega⟩
    · rw [hnext] at hcount ⊢
      rw [hp] at hcount
      simp only [Pc.inFlight, Bool.false_eq_true, if_false] at hcount
      simp only
      rw [hcount]
      exact ⟨by omega, fun h => by have := hzero h; omega⟩

theorem pool_run_invariant (taskID : String) (schedule : List (Nat × Option String))
    (p : Pool) (hle : p.pcs.countP Pc.inFlight ≤ 1)
    (hzero : taskID ∉ p.shared.processedIDs → p.pcs.countP Pc.inFlight = 0) :
    (Pool.run taskID schedule p).pcs.countP Pc.inFlight ≤ 1 ∧
    (taskID ∉ (Pool.run taskID schedule p).shared.processedIDs →
      (Pool.run taskID schedule p).pcs.countP Pc.inFlight = 0) := by
  induction schedule generalizing p with
  | nil => exact ⟨hle, hzero⟩
  | cons move rest ih =>
    obtain ⟨h1, h2⟩ := pool_step_invariant taskID p move hle hzero
    exact ih (Pool.step taskID p move) h1 h2

theorem pool_start_invariant (n : Nat) (w : workerService) :
    (Pool.start n w).pcs.countP Pc.inFlight = 0 := by
  simp [Pool.start, List.countP_replicate, Pc.inFlight]

theorem pool_step_tracker (taskID : String) (p : Pool) (move : Nat × Option String) :
    (Pool.trackerStep taskID p move = TrackerStep.stored →
      taskID ∉ p.shared.processedIDs ∧
      taskID ∈ (Pool.step taskID p move).shared.processedIDs) ∧
    (Pool.trackerStep taskID p move = TrackerStep.loaded →
      taskID ∈ p.shared.processedIDs ∧
      (Pool.step taskID p move).shared.processedIDs = p.shared.processedIDs) ∧
    (Pool.trackerStep taskID p move = TrackerStep.removed →
      taskID ∉ (Pool.step taskID p move).shared.processedIDs) ∧
    (Pool.trackerStep taskID p move = TrackerStep.other →
      (Pool.step taskID p move).shared.processedIDs = p.shared.processedIDs) := by
  unfold Pool.trackerStep Pool.step
  cases hpc : p.pcs[move.1]? with
  | none => simp
  | some pc =>
    rcases stepTask_cases move.2 taskID p.shared pc with
      ⟨hp, hk, _, hids⟩ | ⟨hp, hk, _, hids⟩ | ⟨hp, hne, _, hids⟩ | ⟨hp, _, hids⟩ | ⟨hp, hnext⟩
    · subst hp; simp [hk, hids]
    · subst hp; simp [hk, hids]
    · cases pc <;> simp [Pc.inFlight] at hp hne ⊢ <;> exact hids
    · subst hp; simp [hids, not_mem_deleteKey]
    · subst hp; simp [hnext]

theorem trackerSteps_present (taskID : String) (segment : List (Nat × Option String))
    (p : Pool) (hno : TrackerStep.removed ∉ Pool.trackerSteps taskID segment p)
    (hk : taskID ∈ p.shared.processedIDs) :
    (Pool.trackerSteps taskID segment p).count TrackerStep.stored = 0 := by
  induction segment generalizing p with
  | nil => simp [Pool.trackerSteps]
  | cons move rest ih =>
    simp only [Pool.trackerSteps, List.mem_cons, not_or] at hno ⊢
    obtain ⟨hstored, hloaded, _, hother⟩ := pool_step_tracker taskID p move
    cases hstep : Pool.trackerStep taskID p move with
    | stored => exact absurd hk (hstored hstep).1
    | loaded =>
      have hk' : taskID ∈ (Pool.step taskID p move).shared.processedIDs := by
        rw [(hloaded hstep).2]; exact hk
      rw [List.count_cons_of_ne (by decide)]
      exact ih _ hno.2 hk'
    | removed => exact absurd hstep.symm hno.1
    | other =>
      have hk' : taskID ∈ (Pool.step taskID p move).shared.processedIDs := by
        rw [hother hstep]; exact hk
      rw [List.count_cons_of_ne (by decide)]
      exact ih _ hno.2 hk'

theorem trackerSteps_absent (taskID : String) (segment : List (Nat × Option String))
    (p : Pool) (hno : TrackerStep.removed ∉ Pool.trackerSteps taskID segment p)
    (hk : taskID ∉ p.shared.processedIDs) :
    (Pool.trackerSteps taskID segment p).count TrackerStep.stored ≤ 1 ∧
    (TrackerStep.stored ∈ Pool.trackerSteps taskID segment p ∨
        TrackerStep.loaded ∈ Pool.trackerSteps taskID segment p →
      (Pool.trackerSteps taskID segment p).count TrackerStep.stored = 1) := by
  induction segment generalizing p with
  | nil => simp [Pool.trackerSteps]
  | cons move rest ih =>
    simp only [Pool.trackerSteps, List.mem_cons, not_or] at hno ⊢
    obtain ⟨hstored, hloaded, _, hother⟩ := pool_step_tracker taskID p move
    cases hstep : Pool.trackerStep taskID p move with
    | stored =>
      have hrest := trackerSteps_present taskID rest _ hno.2 (hstored hstep).2
      rw [List.count_cons_self, hrest]
      exact ⟨le_refl _, fun _ => rfl⟩
    | loaded => exact absurd (hloaded hstep).1 hk
    | removed => exact absurd hstep.symm hno.1
    | other =>
      have hk' : taskID ∉ (Pool.step taskID p move).shared.processedIDs := by
        rw [hother hstep]; exact hk
      obtain ⟨h1, h2⟩ := ih _ hno.2 hk'
      rw [List.count_cons_of_ne (by decide)]
      refine ⟨h1, fun h => h2 ?_⟩
      rcases h with (h | h) | (h | h)
      · exact absurd h (by decide)
      · exact Or.inl h
      · exact absurd h (by decide)
      · exact Or.inr h

/-- Three invocations on `pendingTask`: the first inserts the key, the second finds it
present and returns, the first runs to its removal, then the third inserts the key again. -/
theorem pool_schedule_example :
    Pool.trackerSteps pendingTask.ID
        [(0, none), (1, none), (0, none), (0, none), (0, none), (0, none), (2, none)]
        (Pool.start 3 pendingService) =
      [.stored, .loaded, .other, .other, .other, .removed, .stored] ∧
    (Pool.run pendingTask.ID
        [(0, none), (1, none), (0, none), (0, none), (0, none), (0, none), (2, none)]
        (Pool.start 3 pendingService)).pcs = [Pc.returned, Pc.returned, Pc.atSleep] := by
  exact ⟨by decide, by decide⟩

/-- C12: with `LoadOrStore` and `Delete` on the tracker as atomic steps, take `n`
invocations of `processTask` on the same task id over one shared service and any schedule
of their steps (any interleaving, any outcome of the store calls). In every state reached,
at most one invocation is between its insert into the tracker and its removal, hence at
most one stands at the status write. In any further run of steps that contains no removal,
at most one `LoadOrStore` finds the key absent, and exactly one does when the key is absent
at the start of the run and some `LoadOrStore` is made; a removal leaves the key absent.
An invocation running alone through its steps is `processTask`. -/
theorem C12_at_most_one_attempt (taskID : String) (w : workerService) (n : Nat)
    (schedule : List (Nat × Option String)) :
    (Pool.run taskID schedule (Pool.start n w)).pcs.countP Pc.inFlight ≤ 1 ∧
    (Pool.run taskID schedule (Pool.start n w)).pcs.countP
      (fun pc => pc == Pc.atUpdateStatus) ≤ 1 ∧
    (∀ segment : List (Nat × Option String),
      TrackerStep.removed ∉
        Pool.trackerSteps taskID segment (Pool.run taskID schedule (Pool.start n w)) →
      (Pool.trackerSteps taskID segment
        (Pool.run taskID schedule (Pool.start n w))).count TrackerStep.stored ≤ 1 ∧
      (taskID ∉ (Pool.run taskID schedule (Pool.start n w)).shared.processedIDs →
        (TrackerStep.stored ∈ Pool.trackerSteps taskID segment
            (Pool.run taskID schedule (Pool.start n w)) ∨
          TrackerStep.loaded ∈ Pool.trackerSteps taskID segment
            (Pool.run taskID schedule (Pool.start n w))) →
        (Pool.trackerSteps taskID segment
          (Pool.run taskID schedule (Pool.start n w))).count TrackerStep.stored = 1)) ∧
    (∀ move : Nat × Option String,
      Pool.trackerStep taskID (Pool.run taskID schedule (Pool.start n w)) move =
        TrackerStep.removed →
      taskID ∉ (Pool.step taskID (Pool.run taskID schedule (Pool.start n w))
        move).shared.processedIDs) ∧
    (∀ readErr writeErr : Option String,
      workerService.runTask taskID [none, none, readErr, writeErr, none]
          (w, Pc.atLoadOrStore) =
        (w.processTask readErr writeErr taskID, Pc.returned)) := by
  have hstart := pool_start_invariant n w
  have hinv := pool_run_invariant taskID schedule (Pool.start n w) (by omega)
    (fun _ => hstart)
  refine ⟨hinv.1, ?_, ?_, ?_, fun readErr writeErr =>
    runTask_eq_processTask readErr writeErr w taskID⟩
  · refine le_trans (List.countP_mono_left ?_) hinv.1
    intro pc _ hpc
    have : pc = Pc.atUpdateStatus := by simpa using hpc
    rw [this]; rfl
  · intro segment hno
    by_cases hk : taskID ∈ (Pool.run taskID schedule (Pool.start n w)).shared.processedIDs
    · have h0 := trackerSteps_present taskID segment _ hno hk
      exact ⟨by omega, fun h => absurd hk h⟩
    · obtain ⟨h1, h2⟩ := trackerSteps_absent taskID segment _ hno hk
      exact ⟨h1, fun _ h => h2 h⟩
  · intro move hmove
    exact (pool_step_tracker taskID _ move).2.2.1 hmove

end TaskApi
